import Mathlib

/-!
# Verification of the Lotus Forum Thread Exporter

Shallow embedding of the thread scraper (`ThreadScraper`), the emoji mapper
(`EmojiMapper`) and the jsPDF-based layout engine (`PDFGenerator`) of the
repository, together with theorems settling the frozen claims about them.

Strings are modelled as Lean `String`/`List Char`; JavaScript regular
expression replacements that the code performs are modelled operation by
operation (each definition mirrors one `.replace` call of the source);
millimetre coordinates of the PDF layout engine are modelled as rationals.
External collaborators (DOM queries, `fetch`, the jsPDF drawing surface)
are modelled as explicit environments.
-/

namespace LotusExporter

/-- The JavaScript `\s` character class (also the set removed by
`String.prototype.trim`): space, tab, line feed, vertical tab, form feed,
carriage return, NBSP and the Unicode space separators, line and paragraph
separators, and BOM. -/
def isJsSpace (c : Char) : Bool :=
  c = ' ' || c = '\t' || c = '\n' || c = '\x0b' || c = '\x0c' || c = '\r' ||
  c = ' ' || c = ' ' ||
  (0x2000 ≤ c.toNat && c.toNat ≤ 0x200A) ||
  c = ' ' || c = ' ' || c = ' ' || c = ' ' ||
  c = '　' || c = '﻿'

/-- JavaScript `String.prototype.trim` on a character list. -/
def jsTrimList (l : List Char) : List Char :=
  ((l.dropWhile isJsSpace).reverse.dropWhile isJsSpace).reverse

/-- JavaScript `String.prototype.trim`. -/
def jsTrim (s : String) : String :=
  ⟨jsTrimList s.data⟩

/-- Global regex replacement of a single-character pattern: JavaScript
`str.replace(/c/g, rep)` replaces every occurrence of the character `c`
by the string `rep`. -/
def jsReplaceChar (c : Char) (rep : String) (l : List Char) : List Char :=
  l.flatMap fun x => if x = c then rep.data else [x]

/-! ## `ThreadScraper.cleanupWhitespace`

The source performs five chained global regex replacements followed by a
trim:
```
text
  .replace(/\n\s*\n\s*\n/g, "\n\n") // Replace 3+ line breaks with 2
  .replace(/[ \t]+/g, " ")          // Replace multiple spaces/tabs with single space
  .replace(/\n /g, "\n")            // Remove spaces at start of lines
  .replace(/ \n/g, "\n")            // Remove spaces at end of lines
  .replace(/\n{3,}/g, "\n\n")       // Replace 3+ consecutive newlines with 2
  .trim();
```
Each stage below models one replacement with the exact JavaScript global
left-to-right, leftmost-greedy matching semantics of its pattern.
-/

/-- The characters of `l` after its last `'\n'` (all of `l` if it has none). -/
def afterLastNl (l : List Char) : List Char :=
  (l.reverse.takeWhile (· ≠ '\n')).reverse

theorem length_takeWhile_lt_of_mem {p : Char → Bool} {l : List Char} {c : Char}
    (hc : c ∈ l) (hp : p c = false) : (l.takeWhile p).length < l.length := by
  induction l with
  | nil => cases hc
  | cons a l ih =>
    by_cases ha : p a
    · rw [List.takeWhile_cons_of_pos ha]
      rcases List.mem_cons.1 hc with rfl | hmem
      · exact absurd ha (by simp [hp])
      · simpa using Nat.succ_lt_succ (ih hmem)
    · rw [List.takeWhile_cons_of_neg (by simpa using ha)]
      simp

theorem afterLastNl_length_lt {l : List Char} (h : '\n' ∈ l) :
    (afterLastNl l).length < l.length := by
  have : ('\n' : Char) ∈ l.reverse := List.mem_reverse.2 h
  have hlt := length_takeWhile_lt_of_mem (p := (· ≠ '\n')) this (by simp)
  simpa [afterLastNl] using hlt.trans_le (by simp)

/-- Stage 1, `.replace(/\n\s*\n\s*\n/g, "\n\n")`.

A match of `\n\s*\n\s*\n` starting at a given `'\n'` exists exactly when the
maximal whitespace run continuing after it contains at least two further
`'\n'`; leftmost-greedy matching then consumes the run up to (and including)
its **last** `'\n'`, and global scanning resumes after it. -/
def replNnn : List Char → List Char
  | [] => []
  | c :: rest =>
    if c = '\n' then
      if 2 ≤ (rest.takeWhile isJsSpace).count '\n' then
        '\n' :: '\n' ::
          replNnn (afterLastNl (rest.takeWhile isJsSpace) ++ rest.dropWhile isJsSpace)
      else
        c :: replNnn rest
    else
      c :: replNnn rest
termination_by l => l.length
decreasing_by
  · simp_wf
    have hmem : '\n' ∈ rest.takeWhile isJsSpace :=
      List.count_pos_iff.1 (by omega)
    have h1 : (afterLastNl (rest.takeWhile isJsSpace)).length <
        (rest.takeWhile isJsSpace).length := afterLastNl_length_lt hmem
    have h2 : (rest.takeWhile isJsSpace).length + (rest.dropWhile isJsSpace).length
        = rest.length := by
      rw [← List.length_append, List.takeWhile_append_dropWhile]
    omega
  all_goals (simp_wf; try omega)

/-- Stage 2, `.replace(/[ \t]+/g, " ")`: each maximal run of spaces and tabs
becomes a single space. -/
def isSpaceTab (c : Char) : Bool := c = ' ' || c = '\t'

def replSpaceTab : List Char → List Char
  | [] => []
  | c :: rest =>
    if isSpaceTab c then
      ' ' :: replSpaceTab (rest.dropWhile isSpaceTab)
    else
      c :: replSpaceTab rest
termination_by l => l.length
decreasing_by
  · simp_wf
    have := (List.dropWhile_sublist isSpaceTab (l := rest)).length_le
    omega
  all_goals (simp_wf; try omega)

/-- Stage 3, `.replace(/\n /g, "\n")`. -/
def replNlSpace : List Char → List Char
  | '\n' :: ' ' :: rest => '\n' :: replNlSpace rest
  | c :: rest => c :: replNlSpace rest
  | [] => []

/-- Stage 4, `.replace(/ \n/g, "\n")`. -/
def replSpaceNl : List Char → List Char
  | ' ' :: '\n' :: rest => '\n' :: replSpaceNl rest
  | c :: rest => c :: replSpaceNl rest
  | [] => []

/-- Stage 5, `.replace(/\n{3,}/g, "\n\n")`: each maximal run of three or
more newlines becomes two. -/
def replNl3 : List Char → List Char
  | '\n' :: '\n' :: '\n' :: rest => '\n' :: '\n' :: replNl3 (rest.dropWhile (· = '\n'))
  | c :: rest => c :: replNl3 rest
  | [] => []
termination_by l => l.length
decreasing_by
  · simp_wf
    have := (List.dropWhile_sublist (fun c => decide (c = '\n')) (l := rest)).length_le
    omega
  all_goals (simp_wf; try omega)

/-- `ThreadScraper.cleanupWhitespace` on character lists. -/
def cleanupWhitespaceList (l : List Char) : List Char :=
  jsTrimList (replNl3 (replSpaceNl (replNlSpace (replSpaceTab (replNnn l)))))

/-- `ThreadScraper.cleanupWhitespace`. -/
def cleanupWhitespace (s : String) : String :=
  ⟨cleanupWhitespaceList s.data⟩

/-! ## DOM model

The scraper works on parsed HTML documents.  A node is either a text node or
an element with a tag name, a class list, an `href` property and children;
this is the closed tagged union the normalizer dispatches on. -/

inductive DomNode where
  | text (s : String)
  | elem (tag : String) (classes : List String) (href : String)
      (children : List DomNode)
deriving Repr

/-- The children of a node (text nodes have none). -/
def DomNode.childNodes : DomNode → List DomNode
  | .text _ => []
  | .elem _ _ _ cs => cs

mutual
/-- DOM `Node.textContent`: the concatenation of all descendant text nodes. -/
def textContent : DomNode → String
  | .text s => s
  | .elem _ _ _ cs => textContentList cs

def textContentList : List DomNode → String
  | [] => ""
  | c :: cs => textContent c ++ textContentList cs
end

/-- Whether an element matches one of the exclusion selectors
`.quoteBox`, `.attachmentThumbnail`, `.messageFooter` removed by
`ThreadScraper.cleanContentElement`. -/
def isUnwanted : DomNode → Bool
  | .text _ => false
  | .elem _ classes _ _ =>
    classes.contains "quoteBox" || classes.contains "attachmentThumbnail" ||
      classes.contains "messageFooter"

mutual
/-- `ThreadScraper.cleanContentElement`: clone the element and remove every
descendant matching one of the unwanted selectors (the root itself is the
query origin and is never removed). -/
def cleanContentElement : DomNode → DomNode
  | .text s => .text s
  | .elem t c h cs => .elem t c h (removeUnwantedList cs)

def removeUnwantedList : List DomNode → List DomNode
  | [] => []
  | c :: cs =>
    (if isUnwanted c then [] else [cleanContentElement c]) ++ removeUnwantedList cs
end

mutual
/-- `element.querySelectorAll("li")` seen from a node: all descendant `li`
elements in document order (the node itself excluded by the callers). -/
def liDesc : DomNode → List DomNode
  | .text _ => []
  | .elem t c h cs => (if t = "li" then [DomNode.elem t c h cs] else []) ++ liList cs

def liList : List DomNode → List DomNode
  | [] => []
  | c :: cs => liDesc c ++ liList cs
end

/-- `ThreadScraper.extractTextContent`:
`element.textContent || element.innerText || ''`. -/
def extractTextContent (el : DomNode) : String := textContent el

mutual
/-- `ThreadScraper.formatElement`: format one HTML element to text, one case
per tag of the source's `switch`. -/
def formatElement (el : DomNode) : String :=
  match el with
  | .text _ => ""
  | .elem tag _cls href cs =>
    if tag = "p" then "\n\n" ++ extractTextContent el
    else if tag = "br" then "\n"
    else if tag = "strong" || tag = "b" then
      "**" ++ extractTextContent el ++ "**"
    else if tag = "em" || tag = "i" then
      "*" ++ extractTextContent el ++ "*"
    else if tag = "a" then extractTextContent el ++ " (" ++ href ++ ")"
    else if tag = "blockquote" then "\n> " ++ extractTextContent el ++ "\n"
    else if tag = "ul" then
      "\n" ++ String.intercalate "\n"
        ((liList cs).map fun li => "• " ++ extractTextContent li) ++ "\n"
    else if tag = "ol" then
      "\n" ++ String.intercalate "\n"
        ((liList cs).enum.map fun p =>
          toString (p.1 + 1) ++ ". " ++ extractTextContent p.2) ++ "\n"
    else if tag = "div" then formatNodes cs
    else extractTextContent el

/-- The `div` branch of `formatElement`: format each child (trimmed text for
text nodes, `formatElement` for elements), drop empty results, join with no
separator — which equals plain concatenation. -/
def formatNodes : List DomNode → String
  | [] => ""
  | .text s :: cs => jsTrim s ++ formatNodes cs
  | e :: cs => formatElement e ++ formatNodes cs
end

/-- `ThreadScraper.parseAndFormatContent` without the final cleanup: process
each child node (trimmed text appended when nonempty — appending the empty
string otherwise is the same — and `formatElement` for elements). -/
def parseChildren : List DomNode → String
  | [] => ""
  | .text s :: cs => jsTrim s ++ parseChildren cs
  | e :: cs => formatElement e ++ parseChildren cs

/-- `ThreadScraper.parseAndFormatContent`. -/
def parseAndFormatContent (el : DomNode) : String :=
  cleanupWhitespace (parseChildren el.childNodes)

/-! ## `PDFGenerator.escapeText` -/

/-- A JavaScript value passed where a string is expected: either an actual
string or something else (`undefined`, `null`, a number, …), which the
`typeof text !== "string"` guards of the source reject. -/
inductive JsVal where
  | str (s : String)
  | nonString
deriving Repr, DecidableEq

/-- The double-quote character. -/
def dquoteChar : Char := Char.ofNat 34

/-- The apostrophe character. -/
def squoteChar : Char := Char.ofNat 39

/-- `PDFGenerator.escapeText`: non-strings become the empty string; strings
get `&`, `<`, `>`, `"` and `'` replaced (in this order, each by a global
single-character regex replace) by their HTML entities. -/
def escapeText : JsVal → String
  | .nonString => ""
  | .str s =>
    ⟨jsReplaceChar squoteChar "&#39;"
      (jsReplaceChar dquoteChar "&quot;"
        (jsReplaceChar '>' "&gt;"
          (jsReplaceChar '<' "&lt;"
            (jsReplaceChar '&' "&amp;" s.data))))⟩

/-! ## Scraper data model and per-post extraction

A `MessageEl` records what the fixed sub-element queries of the scraper see
on one `article.wbbPost` element: the share-button anchor (selector
`a.wsShareButton[href*="postID"]`), the author and date sub-elements, the
`.messageText` content element, the attachment anchors and the quote boxes.
-/

structure ShareButton where
  /-- `textContent` of the share-button anchor. -/
  textC : String
  /-- `href` property of the anchor. -/
  href : String
deriving Repr, DecidableEq

structure AttachmentEl where
  /-- `href` property of the `.attachmentThumbnail a` anchor (`""` when the
  anchor has no href, which JavaScript treats as falsy). -/
  href : String
  /-- `textContent` of the nested `.attachmentThumbnail .attachmentFilename`
  element, when present. -/
  filenameText : Option String
deriving Repr, DecidableEq

structure QuoteEl where
  /-- `textContent` of the `.quoteBoxTitle a` element, when present. -/
  titleAnchorText : Option String
  /-- The `.quoteBoxContent` element, when present. -/
  contentEl : Option DomNode
deriving Repr

structure MessageEl where
  shareButton : Option ShareButton
  /-- `textContent` of `.messageAuthor .username`, when present. -/
  authorText : Option String
  /-- `textContent` of `.messagePublicationTime`, when present. -/
  dateText : Option String
  /-- The `.messageText` element, when present. -/
  contentEl : Option DomNode
  attachmentEls : List AttachmentEl
  quoteEls : List QuoteEl
deriving Repr

structure Attachment where
  filename : String
  url : String
  type : String
deriving Repr, DecidableEq

structure Quote where
  title : String
  content : String
  author : String
deriving Repr, DecidableEq

structure Post where
  id : String
  postNumber : String
  postUrl : String
  author : String
  date : String
  content : String
  attachments : List Attachment
  quotes : List Quote
  page : Nat
deriving Repr, DecidableEq

/-- Whether a (trimmed) share-link text matches the source's post-number
pattern `/^#+\d+$/`: one or more `#`, then one or more digits, nothing else. -/
def matchesHashNum (l : List Char) : Bool :=
  let hs := l.takeWhile (· = '#')
  let ds := l.dropWhile (· = '#')
  !hs.isEmpty && !ds.isEmpty && ds.all (·.isDigit)

/-- `ThreadScraper.getPostNumber`: trimmed share-link text matching
`/^#+\d+$/` has its leading hashes collapsed (`.replace(/^#+/, "#")`);
anything else yields `""`. -/
def getPostNumber (el : MessageEl) : String :=
  match el.shareButton with
  | some sb =>
    let t := jsTrim sb.textC
    if matchesHashNum t.data then ⟨'#' :: t.data.dropWhile (· = '#')⟩ else ""
  | none => ""

/-- `ThreadScraper.getPostUrl`. -/
def getPostUrl (el : MessageEl) : String :=
  match el.shareButton with
  | some sb => if sb.href ≠ "" then sb.href else ""
  | none => ""

/-- `ThreadScraper.getPostAuthor`: the trimmed author text when non-empty,
otherwise the `"Unknown Author"` sentinel. -/
def getPostAuthor (el : MessageEl) : String :=
  match el.authorText with
  | some t => if jsTrim t ≠ "" then jsTrim t else "Unknown Author"
  | none => "Unknown Author"

/-- `ThreadScraper.getPostDate`. -/
def getPostDate (el : MessageEl) : String :=
  match el.dateText with
  | some t => if jsTrim t ≠ "" then jsTrim t else ""
  | none => ""

/-- `ThreadScraper.getPostContent`: `""` when there is no `.messageText`
element, otherwise the cleaned element formatted to final text. -/
def getPostContent (el : MessageEl) : String :=
  match el.contentEl with
  | none => ""
  | some c => parseAndFormatContent (cleanContentElement c)

/-- `ThreadScraper.getAttachmentType`: classify by the lowercased text after
the last `.` of the URL (`url.split(".").pop().toLowerCase()`). -/
def getAttachmentType (url : String) : String :=
  let ext := (((url.splitOn ".").getLast?).getD "").toLower
  if ["jpg", "jpeg", "png", "gif", "webp", "svg"].contains ext then "image"
  else if ["mp4", "avi", "mov", "wmv"].contains ext then "video"
  else if ["mp3", "wav", "ogg", "m4a"].contains ext then "audio"
  else "file"

/-- `ThreadScraper.getPostAttachments`: anchors with a truthy `href` become
attachments; a missing filename element falls back to `"Attachment"`. -/
def getPostAttachments (el : MessageEl) : List Attachment :=
  el.attachmentEls.filterMap fun a =>
    if a.href ≠ "" then
      some { filename := match a.filenameText with
               | some t => jsTrim t
               | none => "Attachment"
             url := a.href
             type := getAttachmentType a.href }
    else none

/-- The character class JavaScript `.` matches against: everything except
line terminators. -/
def notLineTerm (c : Char) : Bool :=
  !(c = '\n' || c = '\r' || c = ' ' || c = ' ')

/-- Leftmost match of `/Quote from (.+)/`: the first occurrence of the
literal `"Quote from "` followed by at least one non-line-terminator
character; the greedy capture runs to the end of that line. -/
def quoteAuthorCapture : List Char → Option (List Char)
  | [] => none
  | c :: rest =>
    if "Quote from ".data.isPrefixOf (c :: rest) ∧
        ¬((c :: rest).drop 11).takeWhile notLineTerm = [] then
      some (((c :: rest).drop 11).takeWhile notLineTerm)
    else
      quoteAuthorCapture rest

/-- `ThreadScraper.extractQuoteAuthor`. -/
def extractQuoteAuthor (titleEl : Option String) : String :=
  match titleEl with
  | none => ""
  | some t =>
    match quoteAuthorCapture (jsTrim t).data with
    | some cap => ⟨cap⟩
    | none => ""

/-- `ThreadScraper.getPostQuotes`. -/
def getPostQuotes (el : MessageEl) : List Quote :=
  el.quoteEls.map fun q =>
    { title := match q.titleAnchorText with
        | some t => jsTrim t
        | none => ""
      content := match q.contentEl with
        | some c => parseAndFormatContent c
        | none => ""
      author := extractQuoteAuthor q.titleAnchorText }

/-- The post object built for one message element (common to
`scrapeCurrentPage` and `scrapePage`, which differ only in the id string and
page stamp). -/
def buildPost (id : String) (el : MessageEl) (page : Nat) : Post :=
  { id := id
    postNumber := getPostNumber el
    postUrl := getPostUrl el
    author := getPostAuthor el
    date := getPostDate el
    content := getPostContent el
    attachments := getPostAttachments el
    quotes := getPostQuotes el
    page := page }

/-- `ThreadScraper.scrapeCurrentPage`: extract posts from the live document's
message elements (page stamp `1`), keeping only posts with some content
(`post.content.length > 0 || post.author !== "Unknown Author"`).  `now` is
the `Date.now()` timestamp used in the generated ids. -/
def scrapeCurrentPage (els : List MessageEl) (now : Nat) : List Post :=
  if els.isEmpty then []
  else
    (els.enum.map fun p =>
        buildPost ("post-" ++ toString now ++ "-" ++ toString p.1) p.2 1).filter
      fun post => decide (0 < post.content.length) || post.author != "Unknown Author"

/-- The external world the scraper's page loop interacts with: the thread
detector's document reads, plus `fetch` + `DOMParser` +
`querySelectorAll(config.selectors.message)` for a given page URL, which can
fail (rejected fetch, parse failure). -/
structure ScrapeEnv where
  threadTitle : String
  href : String
  metaStatistics : String
  threadId : String
  boardId : String
  nowIso : String
  totalPages : Nat
  pageUrl : Nat → Option String
  fetchParse : String → Except String (List MessageEl)

structure ThreadMetadata where
  statistics : String
  threadId : String
  boardId : String
deriving Repr, DecidableEq

structure ThreadData where
  title : String
  url : String
  posts : List Post
  metadata : ThreadMetadata
  scrapedAt : String
deriving Repr, DecidableEq

/-- `ThreadScraper.scrapePage`: resolve the page URL (throwing when absent),
fetch and parse it, and build one post per message element — all of them,
stamped with `pageNumber`.  Any failure is rethrown wrapped in
`"Failed to scrape page N: …"`. -/
def scrapePage (env : ScrapeEnv) (pageNumber : Nat) (now : Nat) :
    Except String (List Post) :=
  match env.pageUrl pageNumber with
  | none => .error ("No URL found for page " ++ toString pageNumber)
  | some pageUrl =>
    match env.fetchParse pageUrl with
    | .error e =>
      .error ("Failed to scrape page " ++ toString pageNumber ++ ": " ++ e)
    | .ok messageElements =>
      .ok (messageElements.enum.map fun p =>
        buildPost
          ("post-" ++ toString now ++ "-" ++ toString pageNumber ++ "-" ++
            toString p.1)
          p.2 pageNumber)

/-- The `for (let page = 1; page <= totalPages; page++)` loop of
`scrapeThreadData`: each page's posts are appended on success; a failing page
is caught, logged and contributes nothing. -/
def scrapeAllPages (env : ScrapeEnv) (now : Nat) : List Post :=
  (List.range' 1 env.totalPages).foldl
    (fun acc page =>
      match scrapePage env page now with
      | .ok pagePosts => acc ++ pagePosts
      | .error _ => acc)
    []

/-- `ThreadScraper.scrapeThreadData`: thread-level fields from the detector,
then all pages scraped strictly in ascending order over HTTP.  Total: every
page failure is caught inside the loop. -/
def scrapeThreadData (env : ScrapeEnv) (now : Nat) : ThreadData :=
  { title := env.threadTitle
    url := env.href
    metadata := ⟨env.metaStatistics, env.threadId, env.boardId⟩
    scrapedAt := env.nowIso
    posts := scrapeAllPages env now }

/-! ## `EmojiMapper` -/

/-- The loaded emoji table: an association of emoji string to description
(the reverse mapping built by `loadEmojiData`). -/
abbrev EmojiMap := List (String × String)

/-- The code-point ranges of `EmojiMapper.processText`'s emoji regex, one
pair per alternative character class. -/
def emojiRanges : List (Nat × Nat) :=
  [(0x1F600, 0x1F64F), (0x1F300, 0x1F5FF), (0x1F680, 0x1F6FF),
   (0x1F1E0, 0x1F1FF), (0x2600, 0x26FF), (0x2700, 0x27BF),
   (0x1F900, 0x1F9FF), (0x1F018, 0x1F0FF), (0x1F200, 0x1F2FF),
   (0x1F700, 0x1F77F), (0x1F780, 0x1F7FF), (0x1F800, 0x1F8FF),
   (0x1FA00, 0x1FA6F), (0x1FA70, 0x1FAFF), (0x2190, 0x21FF),
   (0x2B00, 0x2BFF), (0x2F00, 0x2FDF), (0x31F0, 0x31FF), (0x32FF, 0x32FF),
   (0x3300, 0x33FF), (0xFE00, 0xFE0F), (0x1F000, 0x1F02F),
   (0x1F0A0, 0x1F0FF), (0x1F100, 0x1F64F)]

/-- Whether a code point is matched by the emoji regex (each alternative
matches a single code point thanks to the `u` flag). -/
def isEmojiChar (c : Char) : Bool :=
  emojiRanges.any fun r => r.1 ≤ c.toNat && c.toNat ≤ r.2

/-- `EmojiMapper.emojiToText`: look the emoji up in the map; a truthy
description yields `[description]`, otherwise the emoji passes through. -/
def emojiToText (m : Option EmojiMap) (emoji : String) : String :=
  match m with
  | none => emoji
  | some mm =>
    match mm.lookup emoji with
    | some description =>
      if description ≠ "" then "[" ++ description ++ "]" else emoji
    | none => emoji

/-- `EmojiMapper.processText`: when no map is loaded (or it is empty) the
text is returned unchanged; otherwise every regex-matched code point is
replaced by `emojiToText` of that character. -/
def processText (m : Option EmojiMap) (text : String) : String :=
  match m with
  | none => text
  | some mm =>
    if mm.isEmpty then text
    else
      ⟨text.data.flatMap fun c =>
        if isEmojiChar c then (emojiToText (some mm) ⟨[c]⟩).data else [c]⟩

/-- `PDFGenerator.replaceEmojis`: delegate to the global mapper when present,
otherwise return the text unchanged. -/
def replaceEmojis (mapperPresent : Bool) (m : Option EmojiMap)
    (text : String) : String :=
  if mapperPresent then processText m text else text

/-! ## PDF layout engine

`PDFGenerator` paints onto a jsPDF document.  The drawing surface is
modelled as an explicit operation trace (`PdfOp`) plus the mutable font
state jsPDF keeps; coordinates are millimetres as rationals.  A4 portrait
pages are 210 × 297 mm.  The primitives the engine calls on the external
surface live in a `PrimEnv`: text measurement, the possibility that
`doc.text` or `doc.link` throws, availability of the jsPDF library, locale
date formatting, and the `Math.random()` outcome of the footer. -/

namespace PDF_CONSTANTS

def MARGIN : ℚ := 15
def LINE_HEIGHT : ℚ := 6
def FONT_SIZE : ℚ := 12
def HEADER_FONT_SIZE : ℚ := 18
def POST_HEADER_FONT_SIZE : ℚ := 14
def PRIMARY_COLOR : ℕ × ℕ × ℕ := (0, 51, 51)
def SECONDARY_COLOR : ℕ × ℕ × ℕ := (250, 248, 245)
def BORDER_COLOR : ℕ × ℕ × ℕ := (200, 220, 200)
def TEXT_COLOR : ℕ × ℕ × ℕ := (20, 40, 20)
def META_COLOR : ℕ × ℕ × ℕ := (100, 120, 100)
def POST_BG_COLOR_1 : ℕ × ℕ × ℕ := (255, 255, 255)
def POST_BG_COLOR_2 : ℕ × ℕ × ℕ := (248, 252, 248)
def HEADER_BG_COLOR : ℕ × ℕ × ℕ := (0, 51, 51)
def HEADER_TEXT_COLOR : ℕ × ℕ × ℕ := (250, 248, 245)
def POST_PADDING : ℚ := 6
def POST_MARGIN_BOTTOM : ℚ := 8

end PDF_CONSTANTS

open PDF_CONSTANTS

/-- One painted operation on the jsPDF surface.  Text operations record the
font state (size in points, style, colour) active when they were painted. -/
inductive PdfOp where
  | text (s : String) (x y : ℚ) (size : ℚ) (style : String)
      (color : ℕ × ℕ × ℕ)
  | page
  | link (x y w h : ℚ) (url : String)
  | roundedRect (x y w h rx ry : ℚ) (color : ℕ × ℕ × ℕ)
  | dot (x y r : ℚ) (color : ℕ × ℕ × ℕ)
deriving Repr, DecidableEq

/-- The `PDFGenerator` instance state plus the jsPDF document state it
drives: current font settings, the layout cursor `currentY`, the page
dimensions, and the trace of painted operations. -/
structure PDFGen where
  fontSize : ℚ := 16
  fontStyle : String := "normal"
  textColor : ℕ × ℕ × ℕ := (0, 0, 0)
  fillColor : ℕ × ℕ × ℕ := (0, 0, 0)
  drawColor : ℕ × ℕ × ℕ := (0, 0, 0)
  lineWidth : ℚ := 1
  currentY : ℚ
  pageWidth : ℚ
  pageHeight : ℚ
  contentWidth : ℚ
  ops : List PdfOp
deriving Repr, DecidableEq

/-- The external jsPDF surface / browser environment the generator calls. -/
structure PrimEnv where
  /-- `doc.getTextWidth` (text measurement by the font engine). -/
  measure : String → ℚ
  /-- Whether `doc.text` throws for this string. -/
  textFails : String → Bool
  /-- Whether the annotation step (`doc.getTextWidth` + `doc.link`) throws
  for this URL. -/
  linkFails : String → Bool
  /-- Whether `window.jspdf?.jsPDF || window.jsPDF` is defined. -/
  jspdfAvailable : Bool
  /-- `new Date(s).toLocaleString()`. -/
  localeDate : String → String
  /-- `Math.floor(Math.random() * jokes.length)` for the footer. -/
  jokeIdx : Nat

def setFontSize (q : ℚ) (g : PDFGen) : PDFGen := { g with fontSize := q }
def setTextColor (c : ℕ × ℕ × ℕ) (g : PDFGen) : PDFGen := { g with textColor := c }
def setFont (style : String) (g : PDFGen) : PDFGen := { g with fontStyle := style }
def setFillColor (c : ℕ × ℕ × ℕ) (g : PDFGen) : PDFGen := { g with fillColor := c }
def setDrawColor (c : ℕ × ℕ × ℕ) (g : PDFGen) : PDFGen := { g with drawColor := c }
def setLineWidth (w : ℚ) (g : PDFGen) : PDFGen := { g with lineWidth := w }

/-- `doc.text(s, x, y)`: may throw (an exception in the external drawing
surface); otherwise appends a text operation painted with the current font
state. -/
def jtext (env : PrimEnv) (s : String) (x y : ℚ) (g : PDFGen) :
    Except String PDFGen :=
  if env.textFails s then .error "doc.text failed"
  else .ok { g with ops := g.ops ++ [.text s x y g.fontSize g.fontStyle g.textColor] }

/-- `doc.addPage()` followed by resetting the cursor to the top margin — the
page-break step the generator performs everywhere. -/
def pageBreak (g : PDFGen) : PDFGen :=
  { g with ops := g.ops ++ [.page], currentY := MARGIN }

/-- Split a character list at every occurrence of a character (the
semantics of `String.split` at single-character separators: `n + 1` pieces
for `n` separators, empty pieces included). -/
def splitAtChar (sep : Char) : List Char → List (List Char)
  | [] => [[]]
  | c :: rest =>
    if c = sep then [] :: splitAtChar sep rest
    else
      match splitAtChar sep rest with
      | [] => [[c]]
      | piece :: pieces => (c :: piece) :: pieces

/-- Modelled from the spec: jsPDF's `doc.splitTextToSize` (the external PDF
drawing surface's line-wrapping primitive, §6) wraps text to the given width
in page units; wrapping by measured width is abstracted here as splitting at
explicit line breaks, which jsPDF also performs. -/
def splitTextToSize (text : String) (_maxWidth : ℚ) : List String :=
  (splitAtChar '\n' text.data).map fun l => ⟨l⟩

/-- `PDFGenerator.addTextWithLink`: paint the text (outside any `try`, so a
`doc.text` exception propagates), then attach the link annotation inside
`try { … } catch` — an annotation failure is logged and swallowed. -/
def addTextWithLink (env : PrimEnv) (text url : String) (x y : ℚ)
    (g : PDFGen) : Except String PDFGen := do
  let g ← jtext env text x y g
  if env.linkFails url then pure g
  else
    pure { g with ops := g.ops ++
      [.link x (y - g.fontSize * 0.35) (env.measure text) (g.fontSize * 0.35) url] }

/-- `PDFGenerator.addText`: paint at the margin and advance one line. -/
def addText (env : PrimEnv) (text : String) (g : PDFGen) :
    Except String PDFGen := do
  let g ← jtext env text MARGIN g.currentY g
  pure { g with currentY := g.currentY + LINE_HEIGHT }

/-- `PDFGenerator.addTextLines`: paint each line at the margin, advancing by
`fontSize * 0.35` (points to millimetres). -/
def addTextLines (env : PrimEnv) :
    List String → ℚ → PDFGen → Except String PDFGen
  | [], _, g => .ok g
  | line :: ls, fs, g => do
    let g ← jtext env line MARGIN g.currentY g
    addTextLines env ls fs { g with currentY := g.currentY + fs * 0.35 }

/-- `PDFGenerator.addIndentedTextLines`. -/
def addIndentedTextLines (env : PrimEnv) :
    List String → ℚ → PDFGen → Except String PDFGen
  | [], _, g => .ok g
  | line :: ls, indent, g => do
    let g ← jtext env line (MARGIN + indent) g.currentY g
    addIndentedTextLines env ls indent
      { g with currentY := g.currentY + LINE_HEIGHT }

/-- `PDFGenerator.addSpace`. -/
def addSpace (space : ℚ) (g : PDFGen) : PDFGen :=
  { g with currentY := g.currentY + space }

/-- `PDFGenerator.checkAndAddPageBreak`. -/
def checkAndAddPageBreak (g : PDFGen) : PDFGen :=
  if g.currentY > g.pageHeight - 50 then pageBreak g else g

/-- The per-line loop of `addPostContentWithPageBreaks`: before each wrapped
line, check whether it fits; if not, break the page, paint the
`"(continued...)"` marker in small muted italics at the top, restore the
body font, then paint the line. -/
def contentLinesLoop (env : PrimEnv) :
    List String → PDFGen → Except String PDFGen
  | [], g => .ok g
  | line :: rest, g =>
    let lineHeight : ℚ := FONT_SIZE * 0.35
    if g.currentY + lineHeight > g.pageHeight - MARGIN then do
      let g := pageBreak g
      let g := setFont "italic" (setTextColor META_COLOR
        (setFontSize (FONT_SIZE - 2) g))
      let g ← jtext env "(continued...)" MARGIN g.currentY g
      let g := { g with currentY := g.currentY + LINE_HEIGHT }
      let g := setFont "normal" (setTextColor TEXT_COLOR
        (setFontSize FONT_SIZE g))
      let g ← jtext env line MARGIN g.currentY g
      contentLinesLoop env rest { g with currentY := g.currentY + lineHeight }
    else do
      let g ← jtext env line MARGIN g.currentY g
      contentLinesLoop env rest { g with currentY := g.currentY + lineHeight }

/-- `PDFGenerator.addPostContentWithPageBreaks`. -/
def addPostContentWithPageBreaks (env : PrimEnv) (content : String)
    (g : PDFGen) : Except String PDFGen :=
  if jsTrim content = "" then .ok g
  else
    let g := setFont "normal" (setTextColor TEXT_COLOR (setFontSize FONT_SIZE g))
    contentLinesLoop env (splitTextToSize content g.contentWidth) g

/-- `PDFGenerator.addPostQuotesWithPageBreaks`: per quote, a coarse
page-break pre-check against a two-line estimate, then the bold header, the
italic indented body, and spacing. -/
def addPostQuotesWithPageBreaks (env : PrimEnv) :
    List Quote → PDFGen → Except String PDFGen
  | [], g => .ok g
  | quote :: qs, g => do
    let quoteHeight := LINE_HEIGHT * 2
    let g := if g.currentY + quoteHeight > g.pageHeight - MARGIN then
        pageBreak g
      else g
    let g := setFont "bold" (setTextColor PRIMARY_COLOR
      (setFontSize (FONT_SIZE - 1) g))
    let g ← addText env (escapeText (.str quote.author) ++ " wrote:") g
    let g := setTextColor TEXT_COLOR (setFont "italic" g)
    let quoteLines := splitTextToSize (escapeText (.str quote.content))
      (g.contentWidth - 10)
    let g := addSpace (LINE_HEIGHT * 0.3) g
    let g ← addIndentedTextLines env quoteLines 5 g
    let g := addSpace (LINE_HEIGHT * 0.5) g
    addPostQuotesWithPageBreaks env qs g

/-- The per-attachment loop of `addPostAttachmentsWithPageBreaks`. -/
def attachmentsLoop (env : PrimEnv) :
    List Attachment → PDFGen → Except String PDFGen
  | [], g => .ok g
  | attachment :: rest, g => do
    let g := addSpace (LINE_HEIGHT * 0.3) g
    if attachment.url ≠ "" then do
      let attachmentText := "‚Ä¢ " ++ escapeText (.str attachment.filename) ++
        " (" ++ escapeText (.str attachment.type) ++ ")"
      let g ← addTextWithLink env attachmentText attachment.url MARGIN
        g.currentY g
      attachmentsLoop env rest { g with currentY := g.currentY + LINE_HEIGHT }
    else do
      let g ← addText env ("‚Ä¢ " ++ escapeText (.str attachment.filename) ++
        " (" ++ escapeText (.str attachment.type) ++ ")") g
      attachmentsLoop env rest g

/-- `PDFGenerator.addPostAttachmentsWithPageBreaks`: one coarse pre-check
sized to the attachment count, the bold `"Attachments:"` label, then the
bulleted entries (clickable when they have a URL). -/
def addPostAttachmentsWithPageBreaks (env : PrimEnv)
    (attachments : List Attachment) (g : PDFGen) : Except String PDFGen := do
  let attachmentHeight := LINE_HEIGHT * ((attachments.length : ℚ) + 2)
  let g := if g.currentY + attachmentHeight > g.pageHeight - MARGIN then
      pageBreak g
    else g
  let g := addSpace (LINE_HEIGHT * 0.5) g
  let g := setFont "bold" (setTextColor PRIMARY_COLOR
    (setFontSize (FONT_SIZE - 1) g))
  let g ← addText env "Attachments:" g
  let g := setTextColor TEXT_COLOR (setFont "normal" g)
  attachmentsLoop env attachments g

/-- `PDFGenerator.addRoundedHeaderBackground`: filled rounded rectangle in
the header background colour, painted before any header text. -/
def addRoundedHeaderBackground (startY endY : ℚ) (g : PDFGen) : PDFGen :=
  let g := setFillColor HEADER_BG_COLOR g
  { g with ops := g.ops ++
      [.roundedRect MARGIN startY g.contentWidth (endY - startY) 3 3 g.fillColor] }

/-- `PDFGenerator.addPostHeader`: background band first, then author, the
date fragment positioned by the measured author width, and the right-aligned
post number (clickable when the post has a URL). -/
def addPostHeader (env : PrimEnv) (post : Post)
    (_backgroundColor : ℕ × ℕ × ℕ) (postStartPosition : ℚ) (g : PDFGen) :
    Except String PDFGen := do
  let headerHeight := LINE_HEIGHT * 0.7
  let g := addRoundedHeaderBackground postStartPosition
    (postStartPosition + POST_PADDING + headerHeight) g
  let g := setFont "bold" (setTextColor HEADER_TEXT_COLOR
    (setFontSize (POST_HEADER_FONT_SIZE - 2) g))
  let g ← jtext env (escapeText (.str post.author)) (MARGIN + 2) g.currentY g
  let g ← if post.date ≠ "" then do
      let authorWidth := env.measure (escapeText (.str post.author))
      let g := setFont "normal" (setTextColor HEADER_TEXT_COLOR
        (setFontSize (FONT_SIZE - 3) g))
      jtext env (" ‚Ä¢ " ++ escapeText (.str post.date))
        (MARGIN + 2 + authorWidth) g.currentY g
    else pure g
  let g ← if post.postNumber ≠ "" then do
      let g := setFont "bold" (setTextColor HEADER_TEXT_COLOR
        (setFontSize (POST_HEADER_FONT_SIZE - 1) g))
      let postNumberText := escapeText (.str post.postNumber)
      let textWidth := env.measure postNumberText
      let rightX := g.pageWidth - MARGIN - textWidth - 2
      if post.postUrl ≠ "" then
        addTextWithLink env postNumberText post.postUrl rightX g.currentY g
      else
        jtext env postNumberText rightX g.currentY g
    else pure g
  let g := { g with currentY := g.currentY + LINE_HEIGHT * 0.7 }
  pure (addSpace (LINE_HEIGHT * 0.8) g)

/-- `PDFGenerator.addSinglePost`: pre-check, top padding, header band,
quotes, body content, attachments, bottom padding and inter-post margin. -/
def addSinglePost (env : PrimEnv) (post : Post) (postIndex : Nat)
    (g : PDFGen) : Except String PDFGen := do
  let backgroundColor := if postIndex % 2 = 0 then POST_BG_COLOR_1
    else POST_BG_COLOR_2
  let g := checkAndAddPageBreak g
  let postStartPosition := g.currentY
  let g := { g with currentY := g.currentY + POST_PADDING }
  let g ← addPostHeader env post backgroundColor postStartPosition g
  let g ← if post.quotes ≠ [] then
      addPostQuotesWithPageBreaks env post.quotes g
    else pure g
  let g ← if post.content ≠ "" then
      addPostContentWithPageBreaks env post.content g
    else pure g
  let g ← if post.attachments ≠ [] then
      addPostAttachmentsWithPageBreaks env post.attachments g
    else pure g
  let g := { g with currentY := g.currentY + POST_PADDING }
  pure { g with currentY := g.currentY + POST_MARGIN_BOTTOM }

/-- The indexed loop of `PDFGenerator.addPosts`, including its own inline
page-break check before each post. -/
def addPostsLoop (env : PrimEnv) :
    List Post → Nat → PDFGen → Except String PDFGen
  | [], _, g => .ok g
  | post :: ps, i, g => do
    let g := if g.currentY > g.pageHeight - 50 then pageBreak g else g
    let g ← addSinglePost env post i g
    addPostsLoop env ps (i + 1) g

/-- `PDFGenerator.addPosts`. -/
def addPosts (env : PrimEnv) (posts : List Post) (g : PDFGen) :
    Except String PDFGen :=
  addPostsLoop env posts 0 g

/-- Modelled from the spec: `PDFGenerator.getCanonicalThreadUrl` uses the
external `URL` class to delete the `postID` and `pageNo` query parameters
and clear the hash; modelled as textual removal of the fragment and of those
query parameters. -/
def getCanonicalThreadUrl (originalUrl : String) : String :=
  let noHash : List Char := (originalUrl.data.takeWhile (· ≠ '#'))
  let base : List Char := noHash.takeWhile (· ≠ '?')
  let query : List Char := (noHash.dropWhile (· ≠ '?')).drop 1
  if query.isEmpty then ⟨base⟩
  else
    let params := (splitAtChar '&' query).filter fun p =>
      !("postID=".data.isPrefixOf p || p = "postID".data ||
        "pageNo=".data.isPrefixOf p || p = "pageNo".data)
    if params.isEmpty then ⟨base⟩
    else ⟨base⟩ ++ "?" ++ String.intercalate "&" (params.map fun p => ⟨p⟩)

/-- `PDFGenerator.addSeparator`: a dotted line, one dot every 4 mm from the
left margin while still left of the right margin. -/
def addSeparator (g : PDFGen) : PDFGen :=
  let g := setLineWidth 0.3 (setDrawColor BORDER_COLOR g)
  let startX := MARGIN
  let endX := g.pageWidth - MARGIN
  let n := (((endX - startX) / 4 : ℚ).ceil).toNat
  let g := { g with ops := g.ops ++
    (List.range n).map fun i => PdfOp.dot (startX + 4 * i) g.currentY 0.3 g.drawColor }
  { g with currentY := g.currentY + 1 }

/-- `PDFGenerator.addThreadHeader`: the document-level header painted once
at the top of page one — title, clickable source link, export date and post
count, and the dotted separator. -/
def addThreadHeader (env : PrimEnv) (threadData : ThreadData) (g : PDFGen) :
    Except String PDFGen := do
  let g := setFont "bold" (setTextColor PRIMARY_COLOR
    (setFontSize (HEADER_FONT_SIZE + 2) g))
  let titleLines := splitTextToSize (escapeText (.str threadData.title))
    g.contentWidth
  let g ← addTextLines env titleLines (HEADER_FONT_SIZE + 2) g
  let g := addSpace (LINE_HEIGHT * 0.5) g
  let g := setFont "normal" (setTextColor META_COLOR
    (setFontSize (FONT_SIZE - 1) g))
  let sourceText := "Source: " ++ getCanonicalThreadUrl threadData.url
  let g ← addTextWithLink env sourceText threadData.url MARGIN g.currentY g
  let g := { g with currentY := g.currentY + LINE_HEIGHT * 0.8 }
  let exportDate := env.localeDate threadData.scrapedAt
  let postCount := toString threadData.posts.length ++ " posts"
  let metaText := "Exported: " ++ exportDate ++ " ‚Ä¢ " ++ postCount
  let g ← addText env metaText g
  let g := addSpace (LINE_HEIGHT * 0.5) g
  let g := addSeparator g
  pure (addSpace (LINE_HEIGHT * 0.5) g)

/-- The footer's fixed joke list. -/
def jokes : List String :=
  ["Remember: It\x27s not a bug, it\x27s a feature - just like the Elise\x27s \x27character\x27!",
   "Exporting threads faster than an Exige accelerates from 0-60!",
   "Because even digital threads deserve the Lotus treatment.",
   "Making forum exports as smooth as an S1 gear change.",
   "From forum to PDF in less time than it takes to explain why you need another Lotus.",
   "Adding lightness to your digital document collection.",
   "Built for the driver who appreciates both performance and reliability.",
   "Because every great thread deserves a proper send-off.",
   "Exporting with the precision of a Lotus suspension setup.",
   "Making PDFs as engaging as a spirited drive through the Alps.",
   "Because sometimes you need to archive more than just memories.",
   "Built by enthusiasts, for enthusiasts - just like Colin Chapman intended.",
   "Adding a touch of British engineering to your digital archives.",
   "Because the best threads are worth preserving in style.",
   "Exporting with the reliability of a K-series engine.",
   "Making forum history as accessible as your garage.",
   "Because every Lotus owner knows: details matter.",
   "Adding the \x27Lotus touch\x27 to your digital documentation.",
   "Built to last longer than a typical Elise ownership experience.",
   "Because even digital threads need proper craftsmanship."]

/-- `PDFGenerator.addFooter`: jump near the bottom of the current (last)
page, paint the centred attribution line and a random joke — no page-break
logic involved. -/
def addFooter (env : PrimEnv) (g : PDFGen) : Except String PDFGen := do
  let g := { g with currentY := g.pageHeight - MARGIN - 10 }
  let g := setFont "normal" (setTextColor META_COLOR
    (setFontSize (FONT_SIZE - 2) g))
  let footerText := "Created by Lotus Forum Thread Exporter"
  let textWidth := env.measure footerText
  let centerX := (g.pageWidth - textWidth) / 2
  let g ← jtext env footerText centerX g.currentY g
  let g := { g with currentY := g.currentY + LINE_HEIGHT * 0.8 }
  let randomJoke := jokes.getD env.jokeIdx ""
  let g := setFont "italic" (setFontSize (FONT_SIZE - 3) g)
  let jokeWidth := env.measure randomJoke
  let jokeCenterX := (g.pageWidth - jokeWidth) / 2
  let g := setTextColor META_COLOR g
  jtext env randomJoke jokeCenterX g.currentY g

/-- `PDFGenerator.initializePDF`: fails when the jsPDF library is missing;
otherwise a fresh A4 portrait document (210 × 297 mm) with the cursor at the
top margin. -/
def initializePDF (env : PrimEnv) : Except String PDFGen :=
  if env.jspdfAvailable then
    .ok { currentY := MARGIN
          pageWidth := 210
          pageHeight := 297
          contentWidth := 210 - MARGIN * 2
          ops := [] }
  else
    .error "jsPDF library not found. Make sure jspdf.umd.js is loaded."

/-- `PDFGenerator.generatePDF`: initialize, thread header, all posts,
footer, then serialize.  The source wraps the body in `try { … } catch
(error) { log; throw error; }` — log-and-rethrow, which leaves the error
propagation of the stages unchanged, so the model is the plain sequence;
the returned blob is modelled by the final operation trace, and exists only
in the success case. -/
def generatePDF (env : PrimEnv) (threadData : ThreadData) :
    Except String (List PdfOp) := do
  let g ← initializePDF env
  let g ← addThreadHeader env threadData g
  let g ← addPosts env threadData.posts g
  let g ← addFooter env g
  pure g.ops

/-- Number of pages of the finished document: one initial page plus one per
`addPage` call. -/
def numPages (ops : List PdfOp) : Nat :=
  1 + ops.count PdfOp.page


/-! ## Layout lemmas: body-content rendering -/

open PDF_CONSTANTS

def paintsBelow (limit : ℚ) : PdfOp → Bool
  | .text _ _ y _ _ _ => limit < y
  | _ => false

theorem jtext_ok {env : PrimEnv} {s : String} (h : env.textFails s = false)
    (x y : ℚ) (g : PDFGen) :
    jtext env s x y g =
      .ok { g with ops := g.ops ++ [.text s x y g.fontSize g.fontStyle g.textColor] } := by
  simp [jtext, h]

def goodChunk (ch : List PdfOp) : Prop :=
  (∃ line y, y + FONT_SIZE * 0.35 ≤ 297 - MARGIN ∧
    ch = [.text line MARGIN y FONT_SIZE "normal" TEXT_COLOR]) ∨
  (∃ line, ch =
    [.page,
     .text "(continued...)" MARGIN MARGIN (FONT_SIZE - 2) "italic" META_COLOR,
     .text line MARGIN (MARGIN + LINE_HEIGHT) FONT_SIZE "normal" TEXT_COLOR])

theorem contentLinesLoop_spec (env : PrimEnv)
    (htf : ∀ s, env.textFails s = false) :
    ∀ (lines : List String) (g : PDFGen),
      g.fontSize = FONT_SIZE → g.fontStyle = "normal" →
      g.textColor = TEXT_COLOR → g.pageHeight = 297 →
      ∃ (r : PDFGen) (chunks : List (List PdfOp)),
        contentLinesLoop env lines g = .ok r ∧
        r.ops = g.ops ++ chunks.flatten ∧
        chunks.length = lines.length ∧
        (∀ ch ∈ chunks, goodChunk ch) := by
  intro lines
  induction lines with
  | nil =>
    intro g h1 h2 h3 h4
    exact ⟨g, [], rfl, by simp, rfl, by simp⟩
  | cons line rest ih =>
    intro g h1 h2 h3 h4
    by_cases hbr : g.currentY + FONT_SIZE * 0.35 > g.pageHeight - MARGIN
    · obtain ⟨r, chunks, hloop, hops, hlen, hch⟩ := ih
        { g with
          ops := g.ops ++
            [.page,
             .text "(continued...)" MARGIN MARGIN (FONT_SIZE - 2) "italic" META_COLOR,
             .text line MARGIN (MARGIN + LINE_HEIGHT) FONT_SIZE "normal" TEXT_COLOR],
          currentY := MARGIN + LINE_HEIGHT + FONT_SIZE * 0.35,
          fontSize := FONT_SIZE, fontStyle := "normal", textColor := TEXT_COLOR }
        rfl rfl rfl h4
      refine ⟨r, [.page,
             .text "(continued...)" MARGIN MARGIN (FONT_SIZE - 2) "italic" META_COLOR,
             .text line MARGIN (MARGIN + LINE_HEIGHT) FONT_SIZE "normal" TEXT_COLOR] :: chunks,
        ?_, ?_, by simpa using hlen, ?_⟩
      · rw [contentLinesLoop, if_pos hbr]
        simp only [pageBreak, setFont, setTextColor, setFontSize, jtext, htf,
          Bind.bind, Except.bind, if_false, Bool.false_eq_true, reduceIte]
        simpa using hloop
      · rw [hops]; simp [List.append_assoc]
      · intro ch hmem
        rcases List.mem_cons.1 hmem with rfl | hmem'
        · exact Or.inr ⟨line, rfl⟩
        · exact hch ch hmem'
    · obtain ⟨r, chunks, hloop, hops, hlen, hch⟩ := ih
        { g with
          ops := g.ops ++ [.text line MARGIN g.currentY FONT_SIZE "normal" TEXT_COLOR],
          currentY := g.currentY + FONT_SIZE * 0.35 }
        h1 h2 h3 h4
      refine ⟨r, [.text line MARGIN g.currentY FONT_SIZE "normal" TEXT_COLOR] :: chunks,
        ?_, ?_, by simpa using hlen, ?_⟩
      · rw [contentLinesLoop, if_neg hbr]
        simp only [jtext, htf, Bind.bind, Except.bind, Bool.false_eq_true, reduceIte]
        rw [h1, h2, h3]
        rw [h1, h2, h3] at hloop
        simpa using hloop
      · rw [hops]; simp [List.append_assoc]
      · intro ch hmem
        rcases List.mem_cons.1 hmem with rfl | hmem'
        · exact Or.inl ⟨line, g.currentY, by push_neg at hbr; linarith [hbr], rfl⟩
        · exact hch ch hmem'

theorem contentLinesLoop_nil (env : PrimEnv) (g : PDFGen) :
    contentLinesLoop env [] g = .ok g := rfl

theorem contentLinesLoop_ops_mono (env : PrimEnv) :
    ∀ (lines : List String) (g r : PDFGen),
      contentLinesLoop env lines g = .ok r →
      ∃ new, r.ops = g.ops ++ new := by
  intro lines
  induction lines with
  | nil =>
    intro g r h
    rw [contentLinesLoop_nil] at h
    cases h
    exact ⟨[], by simp⟩
  | cons line rest ih =>
    intro g r h
    rw [contentLinesLoop] at h
    by_cases hbr : g.currentY + FONT_SIZE * 0.35 > g.pageHeight - MARGIN
    · rw [if_pos hbr] at h
      by_cases ht1 : env.textFails "(continued...)"
      · simp [jtext, ht1, pageBreak, setFont, setTextColor, setFontSize,
          Bind.bind, Except.bind] at h
      · by_cases ht2 : env.textFails line
        · simp [jtext, ht1, ht2, pageBreak, setFont, setTextColor, setFontSize,
            Bind.bind, Except.bind] at h
        · simp only [jtext, ht1, ht2, pageBreak, setFont, setTextColor, setFontSize,
            Bind.bind, Except.bind, Bool.false_eq_true, reduceIte] at h
          obtain ⟨new, hnew⟩ := ih _ _ h
          refine ⟨[PdfOp.page,
            PdfOp.text "(continued...)" MARGIN MARGIN (FONT_SIZE - 2) "italic" META_COLOR,
            PdfOp.text line MARGIN (MARGIN + LINE_HEIGHT) FONT_SIZE "normal" TEXT_COLOR]
              ++ new, ?_⟩
          rw [hnew]; simp
    · rw [if_neg hbr] at h
      by_cases ht2 : env.textFails line
      · simp [jtext, ht2, Bind.bind, Except.bind] at h
      · simp only [jtext, ht2, Bind.bind, Except.bind, Bool.false_eq_true,
          reduceIte] at h
        obtain ⟨new, hnew⟩ := ih _ _ h
        refine ⟨[PdfOp.text line MARGIN g.currentY g.fontSize g.fontStyle g.textColor]
          ++ new, ?_⟩
        rw [hnew]; simp

/-- If the wrapped lines cannot all fit below the cursor, the per-line loop
breaks the page at least once. -/
theorem contentLinesLoop_adds_page (env : PrimEnv) :
    ∀ (lines : List String) (g r : PDFGen),
      contentLinesLoop env lines g = .ok r →
      0 < lines.length →
      g.pageHeight - MARGIN - g.currentY <
        (lines.length : ℚ) * (FONT_SIZE * 0.35) →
      g.ops.count PdfOp.page < r.ops.count PdfOp.page := by
  intro lines
  induction lines with
  | nil =>
    intro g r h h0
    simp at h0
  | cons line rest ih =>
    intro g r h _ hbound
    simp only [List.length_cons] at hbound
    rw [contentLinesLoop] at h
    by_cases hbr : g.currentY + FONT_SIZE * 0.35 > g.pageHeight - MARGIN
    · rw [if_pos hbr] at h
      by_cases ht1 : env.textFails "(continued...)"
      · simp [jtext, ht1, pageBreak, setFont, setTextColor, setFontSize,
          Bind.bind, Except.bind] at h
      · by_cases ht2 : env.textFails line
        · simp [jtext, ht1, ht2, pageBreak, setFont, setTextColor, setFontSize,
            Bind.bind, Except.bind] at h
        · simp only [jtext, ht1, ht2, pageBreak, setFont, setTextColor, setFontSize,
            Bind.bind, Except.bind, Bool.false_eq_true, reduceIte] at h
          obtain ⟨new, hnew⟩ := contentLinesLoop_ops_mono env rest _ _ h
          rw [hnew]
          simp [List.count_append]
    · rw [if_neg hbr] at h
      by_cases ht2 : env.textFails line
      · simp [jtext, ht2, Bind.bind, Except.bind] at h
      · simp only [jtext, ht2, Bind.bind, Except.bind, Bool.false_eq_true,
          reduceIte] at h
        push_neg at hbr
        have hrest : 0 < rest.length := by
          by_contra h0
          push_neg at h0
          have hl : rest.length = 0 := Nat.le_zero.mp h0
          rw [hl] at hbound
          push_cast at hbound
          norm_num at hbound
          linarith
        have hb2 := ih _ _ h hrest (by
          dsimp only
          push_cast at hbound
          linarith)
        simpa [List.count_append] using hb2


/-! ## Scraper lemmas: page loop, ordering, extraction -/

/-- The page loop is append-only: its result is the concatenation, in page
order, of the post lists of the pages that succeeded. -/
theorem scrapeAllPages_eq_flatten (env : ScrapeEnv) (now : Nat) :
    scrapeAllPages env now =
      ((List.range' 1 env.totalPages).map fun p =>
        match scrapePage env p now with
        | .ok ps => ps
        | .error _ => []).flatten := by
  have key : ∀ (l : List Nat) (acc : List Post),
      l.foldl (fun acc page =>
        match scrapePage env page now with
        | .ok pagePosts => acc ++ pagePosts
        | .error _ => acc) acc =
      acc ++ (l.map fun p =>
        match scrapePage env p now with
        | .ok ps => ps
        | .error _ => []).flatten := by
    intro l
    induction l with
    | nil => intro acc; simp
    | cons p ps ih =>
      intro acc
      simp only [List.foldl_cons, List.map_cons, List.flatten_cons]
      cases h : scrapePage env p now with
      | ok posts => rw [ih]; simp
      | error e => rw [ih]; simp
  simpa [scrapeAllPages] using key (List.range' 1 env.totalPages) []

theorem mem_scrapePage_page (env : ScrapeEnv) (p now : Nat) :
    ((scrapePage env p now).toOption.getD []).Forall fun post => post.page = p := by
  rw [List.forall_iff_forall_mem]
  intro post hmem
  cases h1 : env.pageUrl p with
  | none => simp [scrapePage, h1, Except.toOption] at hmem
  | some u =>
    cases h2 : env.fetchParse u with
    | error e => simp [scrapePage, h1, h2, Except.toOption] at hmem
    | ok els =>
      simp only [scrapePage, h1, h2, Except.toOption, Option.getD] at hmem
      obtain ⟨pair, hpair, rfl⟩ := List.mem_map.1 hmem
      rfl

theorem chain_of_const {l : List Post} {p : Nat}
    (h : ∀ post ∈ l, post.page = p) :
    List.Chain' (fun a b => a.page ≤ b.page) l := by
  induction l with
  | nil => exact List.chain'_nil
  | cons a l ih =>
    cases l with
    | nil => exact List.chain'_singleton a
    | cons b l =>
      refine List.Chain'.cons ?_ (ih fun post hm => h post (List.mem_cons_of_mem a hm))
      rw [h a (by simp), h b (by simp)]

theorem mem_flatten_page_ge (env : ScrapeEnv) (now : Nat) :
    ∀ (lo n : Nat) (post : Post),
      post ∈ ((List.range' lo n).map fun p =>
        match scrapePage env p now with
        | .ok ps => ps
        | .error _ => []).flatten →
      lo ≤ post.page := by
  intro lo n
  induction n generalizing lo with
  | zero => intro post h; simp [List.range'] at h
  | succ n ih =>
    intro post h
    rw [List.range'_succ] at h
    simp only [List.map_cons, List.flatten_cons, List.mem_append] at h
    rcases h with h | h
    · have hall := mem_scrapePage_page env lo now
      rw [List.forall_iff_forall_mem] at hall
      cases hok : scrapePage env lo now with
      | ok ps =>
        rw [hok] at h
        have := hall post (by simp [hok, Except.toOption]; exact h)
        omega
      | error e => rw [hok] at h; simp at h
    · have := ih (lo + 1) post h
      omega

theorem chain_flatten (env : ScrapeEnv) (now : Nat) :
    ∀ (lo n : Nat),
      List.Chain' (fun a b => a.page ≤ b.page)
        (((List.range' lo n).map fun p =>
          match scrapePage env p now with
          | .ok ps => ps
          | .error _ => []).flatten) := by
  intro lo n
  induction n generalizing lo with
  | zero => simp [List.range']
  | succ n ih =>
    rw [List.range'_succ]
    simp only [List.map_cons, List.flatten_cons]
    refine List.Chain'.append ?_ (ih (lo + 1)) ?_
    · cases hok : scrapePage env lo now with
      | ok ps =>
        refine chain_of_const (p := lo) fun post hm => ?_
        have hall := mem_scrapePage_page env lo now
        rw [List.forall_iff_forall_mem] at hall
        exact hall post (by simp [hok, Except.toOption]; exact hm)
      | error e => simp
    · intro x hx y hy
      cases hok : scrapePage env lo now with
      | ok ps =>
        rw [hok] at hx
        have hall := mem_scrapePage_page env lo now
        rw [List.forall_iff_forall_mem] at hall
        have hxp : x.page = lo := hall x (by
          simp [hok, Except.toOption]
          exact List.mem_of_mem_getLast? hx)
        have hyp : lo + 1 ≤ y.page :=
          mem_flatten_page_ge env now (lo + 1) n y (List.mem_of_mem_head? hy)
        omega
      | error e => rw [hok] at hx; simp at hx

def elAlice : MessageEl := ⟨none, some "Alice", none, none, [], []⟩
def elBob : MessageEl := ⟨none, some "Bob", none, none, [], []⟩
def elCara : MessageEl := ⟨none, some "Cara", none, none, [], []⟩
def elEmpty : MessageEl := ⟨none, none, none, none, [], []⟩

def c4env : ScrapeEnv :=
  { threadTitle := "T", href := "u", metaStatistics := "", threadId := ""
    boardId := "", nowIso := "2024", totalPages := 3
    pageUrl := fun p => some ("page" ++ toString p)
    fetchParse := fun url =>
      if url = "page1" then .ok [elAlice, elBob]
      else if url = "page2" then .error "network error"
      else if url = "page3" then .ok [elCara]
      else .ok [] }

set_option maxRecDepth 100000 in
/-- C4: a page whose fetch/parse fails contributes zero posts and the loop
continues — `scrapeThreadData` returns exactly the posts of the pages that
succeeded (concretely: with page 2 of 3 failing, the posts of pages 1 and 3,
in order), and itself always completes. -/
theorem c4_page_failure_tolerated :
    (∀ env now, (scrapeThreadData env now).posts =
      ((List.range' 1 env.totalPages).map fun p =>
        match scrapePage env p now with
        | .ok ps => ps
        | .error _ => []).flatten) ∧
    (scrapePage c4env 2 0).isOk = false ∧
    (scrapeThreadData c4env 0).posts =
      ((scrapePage c4env 1 0).toOption.getD []) ++
        ((scrapePage c4env 3 0).toOption.getD []) ∧
    (scrapeThreadData c4env 0).posts.map Post.author = ["Alice", "Bob", "Cara"] := by
  refine ⟨fun env now => ?_, by decide, by decide, by decide⟩
  simpa [scrapeThreadData] using scrapeAllPages_eq_flatten env now

/-- C6: pages are scraped in ascending order 1..totalPages and each post is
stamped with its page number, so the `page` field is monotone non-decreasing
across the returned posts sequence. -/
theorem c6_pages_ascending :
    (∀ env now, List.Chain' (fun a b => a.page ≤ b.page)
      (scrapeThreadData env now).posts) ∧
    (∀ env p now, ((scrapePage env p now).toOption.getD []).Forall
      fun post => post.page = p) := by
  constructor
  · intro env now
    rw [show (scrapeThreadData env now).posts = scrapeAllPages env now from rfl,
      scrapeAllPages_eq_flatten]
    exact chain_flatten env now 1 env.totalPages
  · exact fun env p now => mem_scrapePage_page env p now

def c2env : ScrapeEnv :=
  { threadTitle := "T", href := "u", metaStatistics := "", threadId := ""
    boardId := "", nowIso := "2024", totalPages := 1
    pageUrl := fun _ => some "p"
    fetchParse := fun _ => .ok [elAlice, elEmpty, elBob] }

set_option maxRecDepth 100000 in
/-- C2 counterexample: a fetched page (scrapePage) keeps a deliberately
empty post — three elements, one empty, still yield three posts, one of
which has empty content and the "Unknown Author" sentinel. -/
theorem c2_counterexample :
    (scrapePage c2env 1 0).isOk = true ∧
    ((scrapePage c2env 1 0).toOption.getD []).length = 3 ∧
    (((scrapePage c2env 1 0).toOption.getD []).any fun post =>
      decide (post.content = "") && decide (post.author = "Unknown Author")) = true := by
  exact ⟨by decide, by decide, by decide⟩

set_option maxRecDepth 100000 in
/-- C2 (amended): only the live-DOM path `scrapeCurrentPage` drops posts
with empty content and the default-author sentinel — there an empty post
among N valid ones yields N posts; the HTTP path `scrapePage` does not
filter. -/
theorem c2_current_page_drops_empty :
    (∀ els now post, post ∈ scrapeCurrentPage els now →
      ¬(post.content = "" ∧ post.author = "Unknown Author")) ∧
    (scrapeCurrentPage [elAlice, elEmpty, elBob] 0).length = 2 ∧
    (scrapeCurrentPage [elAlice, elEmpty, elBob] 0).map Post.author =
      ["Alice", "Bob"] := by
  refine ⟨?_, by decide, by decide⟩
  intro els now post hmem ⟨hc, ha⟩
  unfold scrapeCurrentPage at hmem
  by_cases hemp : els.isEmpty
  · rw [if_pos hemp] at hmem; simp at hmem
  · rw [if_neg hemp] at hmem
    have := List.of_mem_filter hmem
    rw [hc, ha] at this
    simp at this

theorem digit_toNat {c : Char} (h : c.isDigit = true) :
    48 ≤ c.toNat ∧ c.toNat ≤ 57 := by
  simp [Char.isDigit] at h
  exact h

theorem isJsSpace_toNat {c : Char} (h : isJsSpace c = true) :
    c.toNat = 32 ∨ c.toNat = 9 ∨ c.toNat = 10 ∨ c.toNat = 11 ∨ c.toNat = 12 ∨
    c.toNat = 13 ∨ c.toNat = 160 ∨ c.toNat = 0x1680 ∨
    (0x2000 ≤ c.toNat ∧ c.toNat ≤ 0x200A) ∨ c.toNat = 0x2028 ∨
    c.toNat = 0x2029 ∨ c.toNat = 0x202F ∨ c.toNat = 0x205F ∨
    c.toNat = 0x3000 ∨ c.toNat = 0xFEFF := by
  unfold isJsSpace at h
  simp only [Bool.or_eq_true, decide_eq_true_eq, Bool.and_eq_true,
    decide_eq_true_eq] at h
  rcases h with ((((((((((((((h | h) | h) | h) | h) | h) | h) | h) | h) | h) | h) | h) | h) | h) | h)
  all_goals first
    | (subst h; decide)
    | omega

theorem not_isJsSpace_of_digit {c : Char} (h : c.isDigit = true) :
    isJsSpace c = false := by
  cases hx : isJsSpace c
  · rfl
  · have h1 := digit_toNat h
    have h2 := isJsSpace_toNat hx
    omega

theorem not_isJsSpace_hash {c : Char} (h : c = '#') : isJsSpace c = false := by
  subst h; decide

theorem jsTrimList_eq_self {l : List Char}
    (h : ∀ c ∈ l, isJsSpace c = false) : jsTrimList l = l := by
  unfold jsTrimList
  have h1 : l.dropWhile isJsSpace = l := by
    cases l with
    | nil => rfl
    | cons c rest => rw [List.dropWhile_cons_of_neg (by simp [h c (by simp)])]
  rw [h1]
  have h2 : l.reverse.dropWhile isJsSpace = l.reverse := by
    cases hr : l.reverse with
    | nil => rfl
    | cons c rest =>
      have hc : c ∈ l := by
        rw [← List.mem_reverse, hr]; simp
      rw [List.dropWhile_cons_of_neg (by simp [h c hc])]
  rw [h2, List.reverse_reverse]

theorem takeWhile_hash_append {h d : List Char} (hh : ∀ c ∈ h, c = '#')
    (hd : ∀ c ∈ d, c.isDigit = true) :
    (h ++ d).takeWhile (· = '#') = h ∧ (h ++ d).dropWhile (· = '#') = d := by
  induction h with
  | nil =>
    cases d with
    | nil => exact ⟨rfl, rfl⟩
    | cons c rest =>
      have hc : c.isDigit = true := hd c (by simp)
      have hcn : ¬(c = '#') := by
        intro he
        have := digit_toNat hc
        rw [he] at this
        simp at this
      constructor
      · simp [List.takeWhile_cons_of_neg, hcn]
      · simp [List.dropWhile_cons_of_neg, hcn]
  | cons c rest ih =>
    have hc : c = '#' := hh c (by simp)
    obtain ⟨ih1, ih2⟩ := ih (fun x hx => hh x (by simp [hx]))
    subst hc
    constructor
    · simpa [List.takeWhile_cons_of_pos] using ih1
    · simpa [List.dropWhile_cons_of_pos] using ih2

/-- C8 (amended): the pattern `/^#+\d+$/` is applied to the *trimmed*
share-link text; a trimmed text of hashes-then-digits has its leading hashes
collapsed to one `#`, any other trimmed text yields `""`, and a missing
share-link element yields `""`. -/
theorem c8_postnumber_normalization :
    (∀ (h d : List Char) (href : String) (a dt : Option String)
        (ce : Option DomNode) (ats : List AttachmentEl) (qs : List QuoteEl),
      h ≠ [] → (∀ c ∈ h, c = '#') → d ≠ [] → (∀ c ∈ d, c.isDigit = true) →
      getPostNumber ⟨some ⟨⟨h ++ d⟩, href⟩, a, dt, ce, ats, qs⟩ =
        ⟨'#' :: d⟩) ∧
    (∀ (el : MessageEl) (sb : ShareButton), el.shareButton = some sb →
      matchesHashNum (jsTrim sb.textC).data = false → getPostNumber el = "") ∧
    (∀ el : MessageEl, el.shareButton = none → getPostNumber el = "") := by
  refine ⟨?_, ?_, ?_⟩
  · intro h d href a dt ce ats qs hne hh dne hd
    have htrim : jsTrim ⟨h ++ d⟩ = ⟨h ++ d⟩ := by
      show String.mk (jsTrimList (h ++ d)) = _
      rw [jsTrimList_eq_self]
      intro c hc
      rcases List.mem_append.1 hc with hm | hm
      · exact not_isJsSpace_hash (hh c hm)
      · exact not_isJsSpace_of_digit (hd c hm)
    obtain ⟨ht, hdw⟩ := takeWhile_hash_append hh hd
    have hmatch : matchesHashNum (h ++ d) = true := by
      unfold matchesHashNum
      rw [ht, hdw]
      simp only [Bool.and_eq_true, Bool.not_eq_true']
      refine ⟨⟨?_, ?_⟩, ?_⟩
      · simpa using hne
      · simpa using dne
      · rw [List.all_eq_true]
        intro c hc
        simpa using hd c hc
    unfold getPostNumber
    simp only [htrim]
    simp [hmatch, hdw]
  · intro el sb hsb hm
    unfold getPostNumber
    rw [hsb]
    simp only [hm]
    simp
  · intro el h
    unfold getPostNumber
    rw [h]


/-! ## Layout lemmas: the amended within-margin invariant and pagination -/

/-- C1 (amended): the per-line body renderer `addPostContentWithPageBreaks`
does check remaining space before each painted line, so every operation it
appends paints above `pageHeight - MARGIN`.  (The quote, attachment and
`addText` paths only make coarse block pre-checks — see the
counterexample.) -/
theorem c1_body_renderer_within_margin (env : PrimEnv) (content : String)
    (g : PDFGen) (htf : ∀ s, env.textFails s = false)
    (h297 : g.pageHeight = 297) :
    ∃ r new, addPostContentWithPageBreaks env content g = .ok r ∧
      r.ops = g.ops ++ new ∧
      ∀ op ∈ new, paintsBelow (297 - MARGIN) op = false := by
  rw [addPostContentWithPageBreaks]
  by_cases hemp : jsTrim content = ""
  · rw [if_pos hemp]
    exact ⟨g, [], rfl, by simp, by simp⟩
  · rw [if_neg hemp]
    obtain ⟨r, chunks, hloop, hops, hlen, hch⟩ :=
      contentLinesLoop_spec env htf
        (splitTextToSize content g.contentWidth)
        (setFont "normal" (setTextColor TEXT_COLOR (setFontSize FONT_SIZE g)))
        rfl rfl rfl h297
    refine ⟨r, chunks.flatten, hloop, by simpa [setFont, setTextColor, setFontSize] using hops, ?_⟩
    intro op hop
    obtain ⟨ch, hchmem, hopch⟩ := List.mem_flatten.1 hop
    rcases hch ch hchmem with ⟨line, y, hy, rfl⟩ | ⟨line, rfl⟩
    · simp only [List.mem_singleton] at hopch
      subst hopch
      simp only [paintsBelow, decide_eq_false_iff_not, not_lt]
      norm_num [FONT_SIZE] at hy
      linarith
    · simp only [List.mem_cons, List.not_mem_nil, or_false] at hopch
      rcases hopch with rfl | rfl | rfl
      · rfl
      · simp only [paintsBelow, decide_eq_false_iff_not, not_lt]
        norm_num [MARGIN]
      · simp only [paintsBelow, decide_eq_false_iff_not, not_lt]
        norm_num [MARGIN, LINE_HEIGHT]

/-- C3: before each wrapped body line the engine checks the remaining
space and starts a new page when the line does not fit, painting a
"(continued...)" marker in the smaller italic muted style at the top
(`goodChunk`), so a body whose wrapped lines exceed one page's content
height yields a document with more than one page. -/
theorem c3_long_body_paginates (env : PrimEnv) (content : String) (g : PDFGen)
    (htf : ∀ s, env.textFails s = false)
    (h297 : g.pageHeight = 297)
    (h15 : MARGIN ≤ g.currentY)
    (hne : jsTrim content ≠ "")
    (hN : (267 : ℚ) <
      ((splitTextToSize content g.contentWidth).length : ℚ) * (FONT_SIZE * 0.35)) :
    ∃ r chunks, addPostContentWithPageBreaks env content g = .ok r ∧
      r.ops = g.ops ++ List.flatten chunks ∧
      (∀ ch ∈ chunks, goodChunk ch) ∧
      numPages g.ops < numPages r.ops := by
  rw [addPostContentWithPageBreaks, if_neg hne]
  obtain ⟨r, chunks, hloop, hops, hlen, hch⟩ :=
    contentLinesLoop_spec env htf
      (splitTextToSize content g.contentWidth)
      (setFont "normal" (setTextColor TEXT_COLOR (setFontSize FONT_SIZE g)))
      rfl rfl rfl h297
  refine ⟨r, chunks, hloop,
    by simpa [setFont, setTextColor, setFontSize] using hops, hch, ?_⟩
  have hlen0 : 0 < (splitTextToSize content g.contentWidth).length := by
    by_contra h0
    push_neg at h0
    have : (splitTextToSize content g.contentWidth).length = 0 := by omega
    rw [this] at hN
    norm_num [FONT_SIZE] at hN
  have h15q : (15 : ℚ) ≤ g.currentY := by simpa [MARGIN] using h15
  have hcount := contentLinesLoop_adds_page env
    (splitTextToSize content g.contentWidth) _ _ hloop hlen0 (by
      dsimp only [setFont, setTextColor, setFontSize]
      rw [h297]
      norm_num [MARGIN, FONT_SIZE] at hN ⊢
      linarith)
  simpa [numPages, setFont, setTextColor, setFontSize] using hcount


/-- The per-character effect of the five chained entity replacements. -/
def escChar (c : Char) : List Char :=
  if c = '&' then "&amp;".data
  else if c = '<' then "&lt;".data
  else if c = '>' then "&gt;".data
  else if c = dquoteChar then "&quot;".data
  else if c = squoteChar then "&#39;".data
  else [c]

theorem escape_chain_single (c : Char) :
    jsReplaceChar squoteChar "&#39;"
      (jsReplaceChar dquoteChar "&quot;"
        (jsReplaceChar '>' "&gt;"
          (jsReplaceChar '<' "&lt;"
            (jsReplaceChar '&' "&amp;" [c])))) = escChar c := by
  by_cases h1 : c = '&'
  · subst h1; decide
  by_cases h2 : c = '<'
  · subst h2; decide
  by_cases h3 : c = '>'
  · subst h3; decide
  by_cases h4 : c = dquoteChar
  · subst h4; decide
  by_cases h5 : c = squoteChar
  · subst h5; decide
  simp [jsReplaceChar, escChar, h1, h2, h3, h4, h5]

theorem escape_chain_append (l1 l2 : List Char) :
    jsReplaceChar squoteChar "&#39;"
      (jsReplaceChar dquoteChar "&quot;"
        (jsReplaceChar '>' "&gt;"
          (jsReplaceChar '<' "&lt;"
            (jsReplaceChar '&' "&amp;" (l1 ++ l2))))) =
    jsReplaceChar squoteChar "&#39;"
      (jsReplaceChar dquoteChar "&quot;"
        (jsReplaceChar '>' "&gt;"
          (jsReplaceChar '<' "&lt;"
            (jsReplaceChar '&' "&amp;" l1)))) ++
    jsReplaceChar squoteChar "&#39;"
      (jsReplaceChar dquoteChar "&quot;"
        (jsReplaceChar '>' "&gt;"
          (jsReplaceChar '<' "&lt;"
            (jsReplaceChar '&' "&amp;" l2)))) := by
  simp [jsReplaceChar, List.flatMap_append]

theorem escapeText_eq_flatMap (s : String) :
    escapeText (.str s) = ⟨s.data.flatMap escChar⟩ := by
  obtain ⟨l⟩ := s
  show String.mk _ = String.mk _
  congr 1
  induction l with
  | nil => rfl
  | cons c l ih =>
    have h0 : (c :: l) = [c] ++ l := rfl
    show jsReplaceChar squoteChar "&#39;" _ = _
    rw [show ({ data := c :: l } : String).data = [c] ++ l from rfl,
      escape_chain_append, ih, escape_chain_single]
    simp [List.flatMap_append]

theorem escChar_no_specials (c c' : Char) (h : c' ∈ escChar c) :
    c' ≠ '<' ∧ c' ≠ '>' ∧ c' ≠ dquoteChar ∧ c' ≠ squoteChar := by
  by_cases h1 : c = '&'
  · subst h1
    refine ⟨fun he => ?_, fun he => ?_, fun he => ?_, fun he => ?_⟩ <;>
      (subst he; revert h; decide)
  by_cases h2 : c = '<'
  · subst h2
    refine ⟨fun he => ?_, fun he => ?_, fun he => ?_, fun he => ?_⟩ <;>
      (subst he; revert h; decide)
  by_cases h3 : c = '>'
  · subst h3
    refine ⟨fun he => ?_, fun he => ?_, fun he => ?_, fun he => ?_⟩ <;>
      (subst he; revert h; decide)
  by_cases h4 : c = dquoteChar
  · subst h4
    refine ⟨fun he => ?_, fun he => ?_, fun he => ?_, fun he => ?_⟩ <;>
      (subst he; revert h; decide)
  by_cases h5 : c = squoteChar
  · subst h5
    refine ⟨fun he => ?_, fun he => ?_, fun he => ?_, fun he => ?_⟩ <;>
      (subst he; revert h; decide)
  · simp only [escChar, h1, h2, h3, h4, h5, if_false] at h
    simp only [List.mem_singleton] at h
    subst h
    exact ⟨h2, h3, h4, h5⟩

/-- The string painted by a text operation, if any. -/
def opText : PdfOp → Option String
  | .text s _ _ _ _ _ => some s
  | _ => none

theorem addText_ok {env : PrimEnv} (htf : ∀ s, env.textFails s = false)
    (text : String) (g : PDFGen) :
    addText env text g = .ok
      { g with
        ops := g.ops ++ [.text text MARGIN g.currentY g.fontSize g.fontStyle g.textColor]
        currentY := g.currentY + LINE_HEIGHT } := by
  simp [addText, jtext, htf, Bind.bind, Except.bind, pure, Except.pure]

theorem addIndentedTextLines_texts (env : PrimEnv)
    (htf : ∀ s, env.textFails s = false) :
    ∀ (lines : List String) (indent : ℚ) (g : PDFGen),
      ∃ r, addIndentedTextLines env lines indent g = .ok r ∧
        r.contentWidth = g.contentWidth ∧
        ∃ new, r.ops = g.ops ++ new ∧
          ∀ op ∈ new, ∀ s, opText op = some s → s ∈ lines := by
  intro lines
  induction lines with
  | nil =>
    intro indent g
    exact ⟨g, rfl, rfl, [], by simp, by simp [opText]⟩
  | cons line ls ih =>
    intro indent g
    obtain ⟨r, hok, hcw, new, hops, htexts⟩ := ih indent
      { g with
        ops := g.ops ++ [.text line (MARGIN + indent) g.currentY g.fontSize
          g.fontStyle g.textColor]
        currentY := g.currentY + LINE_HEIGHT }
    refine ⟨r, ?_, by simpa using hcw,
      .text line (MARGIN + indent) g.currentY g.fontSize g.fontStyle g.textColor :: new,
      by simpa using hops, ?_⟩
    · rw [addIndentedTextLines]
      simp only [jtext, htf, Bool.false_eq_true, reduceIte, Bind.bind, Except.bind]
      exact hok
    · intro op hop s hs
      rcases List.mem_cons.1 hop with rfl | hmem
      · simp only [opText, Option.some.injEq] at hs
        simp [hs]
      · exact List.mem_cons_of_mem _ (htexts op hmem s hs)

theorem addPostQuotes_texts (env : PrimEnv)
    (htf : ∀ s, env.textFails s = false) :
    ∀ (quotes : List Quote) (g : PDFGen),
      ∃ r, addPostQuotesWithPageBreaks env quotes g = .ok r ∧
        r.contentWidth = g.contentWidth ∧
        ∃ new, r.ops = g.ops ++ new ∧
          ∀ op ∈ new, ∀ s, opText op = some s →
            ∃ q ∈ quotes, s = escapeText (.str q.author) ++ " wrote:" ∨
              s ∈ splitTextToSize (escapeText (.str q.content))
                (g.contentWidth - 10) := by
  intro quotes
  induction quotes with
  | nil =>
    intro g
    exact ⟨g, rfl, rfl, [], by simp, by simp [opText]⟩
  | cons q qs ih =>
    intro g
    by_cases hbr : g.currentY + LINE_HEIGHT * 2 > g.pageHeight - MARGIN
    · -- page break before the quote
      obtain ⟨r5, hok5, hcw5, new5, hops5, htexts5⟩ :=
        addIndentedTextLines_texts env htf
          (splitTextToSize (escapeText (.str q.content)) (g.contentWidth - 10)) 5
          { g with
            fontSize := FONT_SIZE - 1, fontStyle := "italic", textColor := TEXT_COLOR
            ops := g.ops ++ [.page] ++
              [.text (escapeText (.str q.author) ++ " wrote:") MARGIN MARGIN
                (FONT_SIZE - 1) "bold" PRIMARY_COLOR]
            currentY := MARGIN + LINE_HEIGHT + LINE_HEIGHT * 0.3 }
      obtain ⟨r, hok, hcw, new, hops, htexts⟩ := ih (addSpace (LINE_HEIGHT * 0.5) r5)
      refine ⟨r, ?_, ?_, ?_, ?_, ?_⟩
      · rw [addPostQuotesWithPageBreaks, if_pos hbr]
        simp only [pageBreak, setFont, setTextColor, setFontSize,
          addText, jtext, htf, Bool.false_eq_true, reduceIte, Bind.bind,
          Except.bind, addSpace, pure, Except.pure]
        rw [hok5]
        exact hok
      · rw [hcw, addSpace, hcw5]
      · exact [PdfOp.page] ++
          [.text (escapeText (.str q.author) ++ " wrote:") MARGIN MARGIN
            (FONT_SIZE - 1) "bold" PRIMARY_COLOR] ++ new5 ++ new
      · rw [hops, addSpace]
        simp only [hops5]
        simp [List.append_assoc]
      · intro op hop s hs
        simp only [List.append_assoc, List.mem_append, List.mem_cons,
          List.not_mem_nil, or_false] at hop
        rcases hop with rfl | hop
        · simp [opText] at hs
        rcases hop with rfl | hop
        · simp only [opText, Option.some.injEq] at hs
          exact ⟨q, by simp, Or.inl hs.symm⟩
        rcases hop with hop | hop
        · exact ⟨q, by simp, Or.inr (by
            have := htexts5 op hop s hs
            simpa using this)⟩
        · obtain ⟨q', hq', hsp⟩ := htexts op hop s hs
          refine ⟨q', by simp [hq'], ?_⟩
          rwa [addSpace, hcw5] at hsp
    · -- no page break
      obtain ⟨r5, hok5, hcw5, new5, hops5, htexts5⟩ :=
        addIndentedTextLines_texts env htf
          (splitTextToSize (escapeText (.str q.content)) (g.contentWidth - 10)) 5
          { g with
            fontSize := FONT_SIZE - 1, fontStyle := "italic", textColor := TEXT_COLOR
            ops := g.ops ++
              [.text (escapeText (.str q.author) ++ " wrote:") MARGIN g.currentY
                (FONT_SIZE - 1) "bold" PRIMARY_COLOR]
            currentY := g.currentY + LINE_HEIGHT + LINE_HEIGHT * 0.3 }
      obtain ⟨r, hok, hcw, new, hops, htexts⟩ := ih (addSpace (LINE_HEIGHT * 0.5) r5)
      refine ⟨r, ?_, ?_, ?_, ?_, ?_⟩
      · rw [addPostQuotesWithPageBreaks, if_neg hbr]
        simp only [setFont, setTextColor, setFontSize,
          addText, jtext, htf, Bool.false_eq_true, reduceIte, Bind.bind,
          Except.bind, addSpace, pure, Except.pure]
        rw [hok5]
        exact hok
      · rw [hcw, addSpace, hcw5]
      · exact [PdfOp.text (escapeText (.str q.author) ++ " wrote:") MARGIN g.currentY
            (FONT_SIZE - 1) "bold" PRIMARY_COLOR] ++ new5 ++ new
      · rw [hops, addSpace]
        simp only [hops5]
        simp [List.append_assoc]
      · intro op hop s hs
        simp only [List.append_assoc, List.mem_append, List.mem_cons,
          List.not_mem_nil, or_false] at hop
        rcases hop with rfl | hop
        · simp only [opText, Option.some.injEq] at hs
          exact ⟨q, by simp, Or.inl hs.symm⟩
        rcases hop with hop | hop
        · exact ⟨q, by simp, Or.inr (by
            have := htexts5 op hop s hs
            simpa using this)⟩
        · obtain ⟨q', hq', hsp⟩ := htexts op hop s hs
          refine ⟨q', by simp [hq'], ?_⟩
          rwa [addSpace, hcw5] at hsp

theorem attachmentsLoop_texts (env : PrimEnv)
    (htf : ∀ s, env.textFails s = false) :
    ∀ (atts : List Attachment) (g : PDFGen),
      ∃ r, attachmentsLoop env atts g = .ok r ∧
        ∃ new, r.ops = g.ops ++ new ∧
          ∀ op ∈ new, ∀ s, opText op = some s →
            ∃ a ∈ atts, s = "‚Ä¢ " ++ escapeText (.str a.filename) ++ " (" ++
              escapeText (.str a.type) ++ ")" := by
  intro atts
  induction atts with
  | nil =>
    intro g
    exact ⟨g, rfl, [], by simp, by simp [opText]⟩
  | cons a as ih =>
    intro g
    by_cases hurl : a.url ≠ ""
    · by_cases hl : env.linkFails a.url
      · obtain ⟨r, hok, new, hops, htexts⟩ := ih
          { g with
            ops := g.ops ++ [.text ("‚Ä¢ " ++ escapeText (.str a.filename) ++ " (" ++
              escapeText (.str a.type) ++ ")") MARGIN (g.currentY + LINE_HEIGHT * 0.3)
              g.fontSize g.fontStyle g.textColor]
            currentY := g.currentY + LINE_HEIGHT * 0.3 + LINE_HEIGHT }
        refine ⟨r, ?_,
          .text ("‚Ä¢ " ++ escapeText (.str a.filename) ++ " (" ++
            escapeText (.str a.type) ++ ")") MARGIN (g.currentY + LINE_HEIGHT * 0.3)
            g.fontSize g.fontStyle g.textColor :: new,
          by simpa using hops, ?_⟩
        · rw [attachmentsLoop, if_pos hurl]
          simp only [addSpace, addTextWithLink, jtext, htf, hl,
            Bool.false_eq_true, reduceIte, Bind.bind, Except.bind, pure,
            Except.pure, ite_true]
          exact hok
        · intro op hop s hs
          rcases List.mem_cons.1 hop with rfl | hmem
          · simp only [opText, Option.some.injEq] at hs
            exact ⟨a, by simp, hs.symm⟩
          · obtain ⟨a', ha', hsa⟩ := htexts op hmem s hs
            exact ⟨a', by simp [ha'], hsa⟩
      · obtain ⟨r, hok, new, hops, htexts⟩ := ih
          { g with
            ops := g.ops ++ [.text ("‚Ä¢ " ++ escapeText (.str a.filename) ++ " (" ++
              escapeText (.str a.type) ++ ")") MARGIN (g.currentY + LINE_HEIGHT * 0.3)
              g.fontSize g.fontStyle g.textColor] ++
              [.link MARGIN (g.currentY + LINE_HEIGHT * 0.3 - g.fontSize * 0.35)
                (env.measure ("‚Ä¢ " ++ escapeText (.str a.filename) ++ " (" ++
                  escapeText (.str a.type) ++ ")")) (g.fontSize * 0.35) a.url]
            currentY := g.currentY + LINE_HEIGHT * 0.3 + LINE_HEIGHT }
        refine ⟨r, ?_,
          [PdfOp.text ("‚Ä¢ " ++ escapeText (.str a.filename) ++ " (" ++
            escapeText (.str a.type) ++ ")") MARGIN (g.currentY + LINE_HEIGHT * 0.3)
            g.fontSize g.fontStyle g.textColor] ++
          [.link MARGIN (g.currentY + LINE_HEIGHT * 0.3 - g.fontSize * 0.35)
            (env.measure ("‚Ä¢ " ++ escapeText (.str a.filename) ++ " (" ++
              escapeText (.str a.type) ++ ")")) (g.fontSize * 0.35) a.url] ++ new,
          by rw [hops]; simp [List.append_assoc], ?_⟩
        · rw [attachmentsLoop, if_pos hurl]
          simp only [addSpace, addTextWithLink, jtext, htf, hl,
            Bool.false_eq_true, reduceIte, Bind.bind, Except.bind, pure,
            Except.pure, ite_false]
          exact hok
        · intro op hop s hs
          simp only [List.append_assoc, List.mem_append, List.mem_cons,
            List.not_mem_nil, or_false] at hop
          rcases hop with rfl | hop
          · simp only [opText, Option.some.injEq] at hs
            exact ⟨a, by simp, hs.symm⟩
          rcases hop with rfl | hop
          · simp [opText] at hs
          · obtain ⟨a', ha', hsa⟩ := htexts op hop s hs
            exact ⟨a', by simp [ha'], hsa⟩
    · obtain ⟨r, hok, new, hops, htexts⟩ := ih
        { g with
          ops := g.ops ++ [.text ("‚Ä¢ " ++ escapeText (.str a.filename) ++ " (" ++
            escapeText (.str a.type) ++ ")") MARGIN (g.currentY + LINE_HEIGHT * 0.3)
            g.fontSize g.fontStyle g.textColor]
          currentY := g.currentY + LINE_HEIGHT * 0.3 + LINE_HEIGHT }
      refine ⟨r, ?_,
        .text ("‚Ä¢ " ++ escapeText (.str a.filename) ++ " (" ++
          escapeText (.str a.type) ++ ")") MARGIN (g.currentY + LINE_HEIGHT * 0.3)
          g.fontSize g.fontStyle g.textColor :: new,
        by simpa using hops, ?_⟩
      · rw [attachmentsLoop, if_neg hurl]
        simp only [addSpace, addText, jtext, htf, Bool.false_eq_true, reduceIte,
          Bind.bind, Except.bind, pure, Except.pure]
        exact hok
      · intro op hop s hs
        rcases List.mem_cons.1 hop with rfl | hmem
        · simp only [opText, Option.some.injEq] at hs
          exact ⟨a, by simp, hs.symm⟩
        · obtain ⟨a', ha', hsa⟩ := htexts op hmem s hs
          exact ⟨a', by simp [ha'], hsa⟩

theorem addPostAttachments_texts (env : PrimEnv)
    (htf : ∀ s, env.textFails s = false) (atts : List Attachment) (g : PDFGen) :
    ∃ r, addPostAttachmentsWithPageBreaks env atts g = .ok r ∧
      ∃ new, r.ops = g.ops ++ new ∧
        ∀ op ∈ new, ∀ s, opText op = some s →
          s = "Attachments:" ∨
          ∃ a ∈ atts, s = "‚Ä¢ " ++ escapeText (.str a.filename) ++ " (" ++
            escapeText (.str a.type) ++ ")" := by
  by_cases hbr : g.currentY + LINE_HEIGHT * ((atts.length : ℚ) + 2) >
      g.pageHeight - MARGIN
  · obtain ⟨r, hok, new, hops, htexts⟩ := attachmentsLoop_texts env htf atts
      { g with
        fontSize := FONT_SIZE - 1, fontStyle := "normal", textColor := TEXT_COLOR
        ops := g.ops ++ [.page] ++ [.text "Attachments:" MARGIN
          (MARGIN + LINE_HEIGHT * 0.5) (FONT_SIZE - 1) "bold" PRIMARY_COLOR]
        currentY := MARGIN + LINE_HEIGHT * 0.5 + LINE_HEIGHT }
    refine ⟨r, ?_,
      [PdfOp.page] ++ [.text "Attachments:" MARGIN (MARGIN + LINE_HEIGHT * 0.5)
        (FONT_SIZE - 1) "bold" PRIMARY_COLOR] ++ new,
      by rw [hops]; simp [List.append_assoc], ?_⟩
    · rw [addPostAttachmentsWithPageBreaks]
      rw [if_pos hbr]
      simp only [pageBreak, addSpace, setFont, setTextColor, setFontSize,
        addText, jtext, htf, Bool.false_eq_true, reduceIte, Bind.bind,
        Except.bind, pure, Except.pure]
      exact hok
    · intro op hop s hs
      simp only [List.append_assoc, List.mem_append, List.mem_cons,
        List.not_mem_nil, or_false] at hop
      rcases hop with rfl | hop
      · simp [opText] at hs
      rcases hop with rfl | hop
      · simp only [opText, Option.some.injEq] at hs
        exact Or.inl hs.symm
      · exact Or.inr (htexts op hop s hs)
  · obtain ⟨r, hok, new, hops, htexts⟩ := attachmentsLoop_texts env htf atts
      { g with
        fontSize := FONT_SIZE - 1, fontStyle := "normal", textColor := TEXT_COLOR
        ops := g.ops ++ [.text "Attachments:" MARGIN
          (g.currentY + LINE_HEIGHT * 0.5) (FONT_SIZE - 1) "bold" PRIMARY_COLOR]
        currentY := g.currentY + LINE_HEIGHT * 0.5 + LINE_HEIGHT }
    refine ⟨r, ?_,
      .text "Attachments:" MARGIN (g.currentY + LINE_HEIGHT * 0.5)
        (FONT_SIZE - 1) "bold" PRIMARY_COLOR :: new,
      by simpa using hops, ?_⟩
    · rw [addPostAttachmentsWithPageBreaks]
      rw [if_neg hbr]
      simp only [addSpace, setFont, setTextColor, setFontSize,
        addText, jtext, htf, Bool.false_eq_true, reduceIte, Bind.bind,
        Except.bind, pure, Except.pure]
      exact hok
    · intro op hop s hs
      rcases List.mem_cons.1 hop with rfl | hmem
      · simp only [opText, Option.some.injEq] at hs
        exact Or.inl hs.symm
      · exact Or.inr (htexts op hmem s hs)

theorem addPostHeader_ops (env : PrimEnv) (post : Post) (bg : ℕ × ℕ × ℕ)
    (sp : ℚ) (g : PDFGen) (htf : ∀ s, env.textFails s = false)
    (hdate : post.date ≠ "") (hnum : post.postNumber ≠ "")
    (hurl : post.postUrl = "") :
    addPostHeader env post bg sp g = .ok
      { g with
        fontSize := POST_HEADER_FONT_SIZE - 1, fontStyle := "bold"
        textColor := HEADER_TEXT_COLOR, fillColor := HEADER_BG_COLOR
        ops := g.ops ++
          [.roundedRect MARGIN sp g.contentWidth
            (sp + POST_PADDING + LINE_HEIGHT * 0.7 - sp) 3 3 HEADER_BG_COLOR] ++
          [.text (escapeText (.str post.author)) (MARGIN + 2) g.currentY
            (POST_HEADER_FONT_SIZE - 2) "bold" HEADER_TEXT_COLOR] ++
          [.text (" ‚Ä¢ " ++ escapeText (.str post.date))
            (MARGIN + 2 + env.measure (escapeText (.str post.author))) g.currentY
            (FONT_SIZE - 3) "normal" HEADER_TEXT_COLOR] ++
          [.text (escapeText (.str post.postNumber))
            (g.pageWidth - MARGIN - env.measure (escapeText (.str post.postNumber)) - 2)
            g.currentY (POST_HEADER_FONT_SIZE - 1) "bold" HEADER_TEXT_COLOR]
        currentY := g.currentY + LINE_HEIGHT * 0.7 + LINE_HEIGHT * 0.8 } := by
  rw [addPostHeader]
  simp only [addRoundedHeaderBackground, setFillColor, setFont, setTextColor,
    setFontSize, jtext, htf, Bool.false_eq_true, reduceIte, Bind.bind,
    Except.bind, pure, Except.pure, addSpace, hdate, hnum, hurl,
    ne_eq, not_true_eq_false, not_false_eq_true, ite_true, ite_false,
    if_neg, if_pos]

/-! ## Concrete instances for the layout claims -/

/-- A benign drawing environment: every string measures 10 mm, nothing
throws, the library is present. -/
def c1env : PrimEnv :=
  { measure := fun _ => 10
    textFails := fun _ => false
    linkFails := fun _ => false
    jspdfAvailable := true
    localeDate := fun s => s
    jokeIdx := 0 }

/-- A quote whose content wraps to four lines. -/
def c1quote : Quote := { title := "", content := "q\nq\nq\nq", author := "B" }

/-- A post carrying seven such quotes and nothing else. -/
def c1post : Post :=
  { id := "p1", postNumber := "", postUrl := "", author := "A", date := ""
    content := "", attachments := [], quotes := List.replicate 7 c1quote
    page := 1 }

def c1thread : ThreadData :=
  { title := "T", url := "u", posts := [c1post]
    metadata := ⟨"", "", ""⟩, scrapedAt := "s" }

/-- A fresh A4 document as `initializePDF` creates it. -/
def c1doc : PDFGen :=
  { currentY := MARGIN, pageWidth := 210, pageHeight := 297
    contentWidth := 210 - MARGIN * 2, ops := [] }

set_option maxRecDepth 100000 in
unseal Rat.mul Rat.add Rat.inv Rat.sub Rat.ofScientific in
/-- C1 counterexample: rendering a thread whose single post carries seven
four-line quotes paints text operations below `pageHeight - MARGIN` while
inserting no page break at all — the quote path pre-checks only a fixed two
lines per quote before emitting all of its lines, so the claimed invariant
fails for the quote-emitting operation. -/
theorem c1_counterexample :
    ((generatePDF c1env c1thread).toOption.getD []).any
        (paintsBelow (297 - MARGIN)) = true ∧
    ((generatePDF c1env c1thread).toOption.getD []).count PdfOp.page = 0 ∧
    (generatePDF c1env c1thread).isOk = true :=
  ⟨by decide, by decide, by decide⟩

/-- The amended C1 invariant holds at a concrete input: rendering the body
`"hello"` on a fresh A4 document succeeds and paints nothing below the
bottom margin. -/
theorem c1_witness :
    (∀ s, c1env.textFails s = false) ∧ c1doc.pageHeight = 297 ∧
    ∃ r new, addPostContentWithPageBreaks c1env "hello" c1doc = .ok r ∧
      r.ops = c1doc.ops ++ new ∧
      ∀ op ∈ new, paintsBelow (297 - MARGIN) op = false :=
  ⟨fun _ => rfl, rfl,
    c1_body_renderer_within_margin c1env "hello" c1doc (fun _ => rfl) rfl⟩

/-- 64 one-character lines: more wrapped lines than one page holds. -/
def longContent : String := String.intercalate "\n" (List.replicate 64 "a")

def c3env : PrimEnv :=
  { measure := fun _ => 10
    textFails := fun _ => false
    linkFails := fun _ => false
    jspdfAvailable := true
    localeDate := fun s => s
    jokeIdx := 0 }

def c3doc : PDFGen :=
  { currentY := MARGIN, pageWidth := 210, pageHeight := 297
    contentWidth := 210 - MARGIN * 2, ops := [] }

set_option maxRecDepth 100000 in
unseal Rat.mul Rat.add Rat.inv Rat.sub Rat.ofScientific in
/-- C3 at a concrete input: a 64-line body on a fresh A4 document renders
successfully in well-formed chunks and the document gains at least one
page. -/
theorem c3_witness :
    (∀ s, c3env.textFails s = false) ∧ c3doc.pageHeight = 297 ∧
    MARGIN ≤ c3doc.currentY ∧ jsTrim longContent ≠ "" ∧
    ((267 : ℚ) <
      ((splitTextToSize longContent c3doc.contentWidth).length : ℚ) *
        (FONT_SIZE * 0.35)) ∧
    ∃ r chunks, addPostContentWithPageBreaks c3env longContent c3doc = .ok r ∧
      r.ops = c3doc.ops ++ List.flatten chunks ∧
      (∀ ch ∈ chunks, goodChunk ch) ∧
      numPages c3doc.ops < numPages r.ops :=
  ⟨fun _ => rfl, rfl, by decide, by decide, by decide,
    c3_long_body_paginates c3env longContent c3doc (fun _ => rfl) rfl
      (by decide) (by decide) (by decide)⟩

/-! ## The emoji substitution pass versus the render path -/

def c5env : PrimEnv :=
  { measure := fun _ => 10
    textFails := fun _ => false
    linkFails := fun _ => false
    jspdfAvailable := true
    localeDate := fun s => s
    jokeIdx := 0 }

/-- A loaded emoji table mapping the thumbs-up sign to a description. -/
def c5map : EmojiMap := [("👍", "thumbs up")]

def c5post : Post :=
  { id := "p1", postNumber := "", postUrl := "", author := "A", date := ""
    content := "Hi 👍", attachments := [], quotes := [], page := 1 }

def c5thread : ThreadData :=
  { title := "T", url := "u", posts := [c5post]
    metadata := ⟨"", "", ""⟩, scrapedAt := "s" }

set_option maxRecDepth 100000 in
unseal Rat.mul Rat.add Rat.inv Rat.sub Rat.ofScientific in
/-- C5: the substitution pass itself behaves as described — a mapped emoji
becomes its bracketed description, an unmapped one passes through, and with
no (or an empty) loaded table the text is unchanged — but the render path
never invokes it: the generated document paints the post body with the raw
emoji even though the table is loaded and maps it. -/
theorem c5_emoji_replacement_dead_on_render_path :
    processText (some c5map) "Hi 👍" = "Hi [thumbs up]" ∧
    processText (some c5map) "Hi 😀" = "Hi 😀" ∧
    processText none "Hi 👍" = "Hi 👍" ∧
    processText (some []) "Hi 👍" = "Hi 👍" ∧
    replaceEmojis false (some c5map) "Hi 👍" = "Hi 👍" ∧
    (generatePDF c5env c5thread).isOk = true ∧
    ((generatePDF c5env c5thread).toOption.getD []).any
      (fun op => opText op == some "Hi 👍") = true :=
  ⟨by decide, by decide, by decide, by decide, by decide, by decide, by decide⟩

/-! ## Error propagation through generatePDF -/

/-- C7: a failure in initialization, thread-header rendering or post
rendering propagates out of `generatePDF` (no operation trace is returned),
while a failed link annotation inside `addTextWithLink` is swallowed: the
text operation is still painted, only the link operation is missing. -/
theorem c7_error_propagation :
    (∀ env td, env.jspdfAvailable = false →
      generatePDF env td =
        .error "jsPDF library not found. Make sure jspdf.umd.js is loaded.") ∧
    (∀ env td e, initializePDF env = .error e →
      generatePDF env td = .error e) ∧
    (∀ env td g e, initializePDF env = .ok g →
      addThreadHeader env td g = .error e → generatePDF env td = .error e) ∧
    (∀ env td g g' e, initializePDF env = .ok g →
      addThreadHeader env td g = .ok g' →
      addPosts env td.posts g' = .error e → generatePDF env td = .error e) ∧
    (∀ env text url x y (g : PDFGen),
      env.textFails text = false → env.linkFails url = true →
      addTextWithLink env text url x y g = .ok
        { g with ops := g.ops ++
            [.text text x y g.fontSize g.fontStyle g.textColor] }) := by
  refine ⟨?_, ?_, ?_, ?_, ?_⟩
  · intro env td h
    simp [generatePDF, initializePDF, h, Bind.bind, Except.bind]
  · intro env td e h
    simp [generatePDF, h, Bind.bind, Except.bind]
  · intro env td g e h1 h2
    simp [generatePDF, h1, h2, Bind.bind, Except.bind]
  · intro env td g g' e h1 h2 h3
    simp [generatePDF, h1, h2, h3, Bind.bind, Except.bind]
  · intro env text url x y g h1 h2
    simp [addTextWithLink, jtext, h1, h2, Bind.bind, Except.bind, pure,
      Except.pure]

/-! ## Escaping of every painted fragment -/

/-- C10: `escapeText` maps a string through the per-character entity table
`escChar` — `&`, `<`, `>`, `"` and `'` become `&amp;`, `&lt;`, `&gt;`,
`&quot;` and `&#39;`, every other character is untouched, no special other
than `&` survives in the output — a non-string input renders as the empty
string, and the post-header, quote and attachment renderers paint only
escaped fragments: every text operation they append is the escaped author /
date / post number, a quote's escaped `author wrote:` header or a wrapped
line of its escaped content, or the `Attachments:` label and an
attachment's escaped `filename (type)` bullet line. -/
theorem c10_painted_text_is_escaped :
    (∀ s : String, escapeText (.str s) = ⟨s.data.flatMap escChar⟩) ∧
    escChar '&' = "&amp;".data ∧ escChar '<' = "&lt;".data ∧
    escChar '>' = "&gt;".data ∧ escChar dquoteChar = "&quot;".data ∧
    escChar squoteChar = "&#39;".data ∧
    (∀ c, c ∉ ['&', '<', '>', dquoteChar, squoteChar] → escChar c = [c]) ∧
    escapeText .nonString = "" ∧
    (∀ c c', c' ∈ escChar c →
      c' ≠ '<' ∧ c' ≠ '>' ∧ c' ≠ dquoteChar ∧ c' ≠ squoteChar) ∧
    (∀ env (post : Post) bg sp (g : PDFGen), (∀ s, env.textFails s = false) →
      post.date ≠ "" → post.postNumber ≠ "" → post.postUrl = "" →
      ∃ r, addPostHeader env post bg sp g = .ok r ∧
        ∃ new, r.ops = g.ops ++ new ∧
          ∀ op ∈ new, ∀ s, opText op = some s →
            s = escapeText (.str post.author) ∨
            s = " ‚Ä¢ " ++ escapeText (.str post.date) ∨
            s = escapeText (.str post.postNumber)) ∧
    (∀ env, (∀ s, env.textFails s = false) → ∀ (quotes : List Quote) g,
      ∃ r, addPostQuotesWithPageBreaks env quotes g = .ok r ∧
        r.contentWidth = g.contentWidth ∧
        ∃ new, r.ops = g.ops ++ new ∧
          ∀ op ∈ new, ∀ s, opText op = some s →
            ∃ q ∈ quotes, s = escapeText (.str q.author) ++ " wrote:" ∨
              s ∈ splitTextToSize (escapeText (.str q.content))
                (g.contentWidth - 10)) ∧
    (∀ env, (∀ s, env.textFails s = false) →
      ∀ (atts : List Attachment) (g : PDFGen),
      ∃ r, addPostAttachmentsWithPageBreaks env atts g = .ok r ∧
        ∃ new, r.ops = g.ops ++ new ∧
          ∀ op ∈ new, ∀ s, opText op = some s →
            s = "Attachments:" ∨
            ∃ a ∈ atts, s = "‚Ä¢ " ++ escapeText (.str a.filename) ++ " (" ++
              escapeText (.str a.type) ++ ")") := by
  refine ⟨escapeText_eq_flatMap, by decide, by decide, by decide, by decide,
    by decide, ?_, rfl, escChar_no_specials, ?_, ?_, ?_⟩
  · intro c hc
    simp only [List.mem_cons, List.not_mem_nil, or_false, not_or] at hc
    obtain ⟨h1, h2, h3, h4, h5⟩ := hc
    simp [escChar, h1, h2, h3, h4, h5]
  · intro env post bg sp g htf hdate hnum hurl
    refine ⟨_, addPostHeader_ops env post bg sp g htf hdate hnum hurl,
      [.roundedRect MARGIN sp g.contentWidth
          (sp + POST_PADDING + LINE_HEIGHT * 0.7 - sp) 3 3 HEADER_BG_COLOR,
        .text (escapeText (.str post.author)) (MARGIN + 2) g.currentY
          (POST_HEADER_FONT_SIZE - 2) "bold" HEADER_TEXT_COLOR,
        .text (" ‚Ä¢ " ++ escapeText (.str post.date))
          (MARGIN + 2 + env.measure (escapeText (.str post.author))) g.currentY
          (FONT_SIZE - 3) "normal" HEADER_TEXT_COLOR,
        .text (escapeText (.str post.postNumber))
          (g.pageWidth - MARGIN -
            env.measure (escapeText (.str post.postNumber)) - 2)
          g.currentY (POST_HEADER_FONT_SIZE - 1) "bold" HEADER_TEXT_COLOR],
      by simp, ?_⟩
    intro op hop s hs
    simp only [List.mem_cons, List.not_mem_nil, or_false] at hop
    rcases hop with rfl | rfl | rfl | rfl
    · simp [opText] at hs
    · simp only [opText, Option.some.injEq] at hs
      exact Or.inl hs.symm
    · simp only [opText, Option.some.injEq] at hs
      exact Or.inr (Or.inl hs.symm)
    · simp only [opText, Option.some.injEq] at hs
      exact Or.inr (Or.inr hs.symm)
  · intro env htf quotes g
    exact addPostQuotes_texts env htf quotes g
  · intro env htf atts g
    exact addPostAttachments_texts env htf atts g


/-! ## Idempotence of `cleanupWhitespace`

The pipeline's output is characterized by five invariants — each stage's
fixpoint condition — established by one stage and preserved by all later
ones (including the final trim), after which re-running every stage is the
identity. -/

/-- `'\n'`-count of the maximal whitespace run starting the list. -/
def wsNlCount (l : List Char) : Nat := (l.takeWhile isJsSpace).count '\n'

/-- Fixpoint condition of `replNnn`: every `'\n'` is followed by a
whitespace run holding at most one further `'\n'`. -/
def runsOKb : List Char → Bool
  | [] => true
  | c :: rest =>
    (if c = '\n' then decide (wsNlCount rest ≤ 1) else true) && runsOKb rest

/-- Fixpoint condition of `replSpaceTab`: no tab, no two adjacent spaces. -/
def spaceTabOK : List Char → Bool
  | [] => true
  | c :: rest =>
    !decide (c = '\t') && !(decide (c = ' ') && decide (rest.head? = some ' '))
      && spaceTabOK rest

/-- Fixpoint condition of `replNlSpace`: no `'\n'` directly followed by a
space. -/
def nlSpaceOK : List Char → Bool
  | [] => true
  | c :: rest =>
    !(decide (c = '\n') && decide (rest.head? = some ' ')) && nlSpaceOK rest

/-- Fixpoint condition of `replSpaceNl`: no space directly followed by
`'\n'`. -/
def spaceNlOK : List Char → Bool
  | [] => true
  | c :: rest =>
    !(decide (c = ' ') && decide (rest.head? = some '\n')) && spaceNlOK rest

/-- Fixpoint condition of `jsTrimList`: neither end is whitespace. -/
def endsOK (l : List Char) : Bool :=
  (l.head?.all fun c => !isJsSpace c) && (l.getLast?.all fun c => !isJsSpace c)

theorem runsOKb_tail {c : Char} {l : List Char} (h : runsOKb (c :: l) = true) :
    runsOKb l = true := by
  simp only [runsOKb, Bool.and_eq_true] at h
  exact h.2

theorem spaceTabOK_tail {c : Char} {l : List Char}
    (h : spaceTabOK (c :: l) = true) : spaceTabOK l = true := by
  simp only [spaceTabOK, Bool.and_eq_true] at h
  exact h.2

theorem nlSpaceOK_tail {c : Char} {l : List Char}
    (h : nlSpaceOK (c :: l) = true) : nlSpaceOK l = true := by
  simp only [nlSpaceOK, Bool.and_eq_true] at h
  exact h.2

theorem spaceNlOK_tail {c : Char} {l : List Char}
    (h : spaceNlOK (c :: l) = true) : spaceNlOK l = true := by
  simp only [spaceNlOK, Bool.and_eq_true] at h
  exact h.2

theorem count_takeWhile_append_le (p : Char → Bool) (a : Char) :
    ∀ x t : List Char, (x.takeWhile p).count a ≤ ((x ++ t).takeWhile p).count a := by
  intro x t
  induction x with
  | nil => simp
  | cons c x ih =>
    by_cases hc : p c
    · simp only [List.cons_append, List.takeWhile_cons_of_pos hc, List.count_cons]
      omega
    · simp [List.takeWhile_cons_of_neg (by simpa using hc)]

theorem wsNlCount_append_le (x t : List Char) :
    wsNlCount x ≤ wsNlCount (x ++ t) :=
  count_takeWhile_append_le isJsSpace '\n' x t

theorem runsOKb_append_left : ∀ {x t : List Char},
    runsOKb (x ++ t) = true → runsOKb x = true := by
  intro x t h
  induction x with
  | nil => rfl
  | cons c x ih =>
    rw [List.cons_append] at h
    simp only [runsOKb, Bool.and_eq_true] at h ⊢
    refine ⟨?_, ih h.2⟩
    rcases h with ⟨h1, _⟩
    by_cases hc : c = '\n'
    · simp only [hc, if_true, decide_eq_true_eq] at h1 ⊢
      exact (wsNlCount_append_le x t).trans h1
    · simp [hc]

theorem spaceTabOK_append_left : ∀ {x t : List Char},
    spaceTabOK (x ++ t) = true → spaceTabOK x = true := by
  intro x t h
  induction x with
  | nil => rfl
  | cons c x ih =>
    rw [List.cons_append] at h
    simp only [spaceTabOK, Bool.and_eq_true] at h ⊢
    refine ⟨⟨h.1.1, ?_⟩, ih h.2⟩
    have h12 := h.1.2
    cases x with
    | nil => simp
    | cons d x' => simpa using h12

theorem nlSpaceOK_append_left : ∀ {x t : List Char},
    nlSpaceOK (x ++ t) = true → nlSpaceOK x = true := by
  intro x t h
  induction x with
  | nil => rfl
  | cons c x ih =>
    rw [List.cons_append] at h
    simp only [nlSpaceOK, Bool.and_eq_true] at h ⊢
    refine ⟨?_, ih h.2⟩
    have h1 := h.1
    cases x with
    | nil => simp
    | cons d x' => simpa using h1

theorem spaceNlOK_append_left : ∀ {x t : List Char},
    spaceNlOK (x ++ t) = true → spaceNlOK x = true := by
  intro x t h
  induction x with
  | nil => rfl
  | cons c x ih =>
    rw [List.cons_append] at h
    simp only [spaceNlOK, Bool.and_eq_true] at h ⊢
    refine ⟨?_, ih h.2⟩
    have h1 := h.1
    cases x with
    | nil => simp
    | cons d x' => simpa using h1

theorem runsOKb_dropWhile (p : Char → Bool) : ∀ {x : List Char},
    runsOKb x = true → runsOKb (x.dropWhile p) = true := by
  intro x h
  induction x with
  | nil => exact h
  | cons c x ih =>
    by_cases hc : p c
    · rw [List.dropWhile_cons_of_pos hc]
      exact ih (runsOKb_tail h)
    · rwa [List.dropWhile_cons_of_neg (by simpa using hc)]

theorem spaceTabOK_dropWhile (p : Char → Bool) : ∀ {x : List Char},
    spaceTabOK x = true → spaceTabOK (x.dropWhile p) = true := by
  intro x h
  induction x with
  | nil => exact h
  | cons c x ih =>
    by_cases hc : p c
    · rw [List.dropWhile_cons_of_pos hc]
      exact ih (spaceTabOK_tail h)
    · rwa [List.dropWhile_cons_of_neg (by simpa using hc)]

theorem nlSpaceOK_dropWhile (p : Char → Bool) : ∀ {x : List Char},
    nlSpaceOK x = true → nlSpaceOK (x.dropWhile p) = true := by
  intro x h
  induction x with
  | nil => exact h
  | cons c x ih =>
    by_cases hc : p c
    · rw [List.dropWhile_cons_of_pos hc]
      exact ih (nlSpaceOK_tail h)
    · rwa [List.dropWhile_cons_of_neg (by simpa using hc)]

theorem spaceNlOK_dropWhile (p : Char → Bool) : ∀ {x : List Char},
    spaceNlOK x = true → spaceNlOK (x.dropWhile p) = true := by
  intro x h
  induction x with
  | nil => exact h
  | cons c x ih =>
    by_cases hc : p c
    · rw [List.dropWhile_cons_of_pos hc]
      exact ih (spaceNlOK_tail h)
    · rwa [List.dropWhile_cons_of_neg (by simpa using hc)]

/-- The trimmed list, with the stripped ends: `dropWhile` gives a suffix and
the reversed `dropWhile` strips a suffix. -/
theorem jsTrimList_eq_append (x : List Char) :
    x.dropWhile isJsSpace =
      jsTrimList x ++ ((x.dropWhile isJsSpace).reverse.takeWhile isJsSpace).reverse := by
  unfold jsTrimList
  rw [← List.reverse_append, List.takeWhile_append_dropWhile, List.reverse_reverse]

theorem runsOKb_trim {x : List Char} (h : runsOKb x = true) :
    runsOKb (jsTrimList x) = true :=
  runsOKb_append_left (jsTrimList_eq_append x ▸ runsOKb_dropWhile isJsSpace h)

theorem spaceTabOK_trim {x : List Char} (h : spaceTabOK x = true) :
    spaceTabOK (jsTrimList x) = true :=
  spaceTabOK_append_left (jsTrimList_eq_append x ▸ spaceTabOK_dropWhile isJsSpace h)

theorem nlSpaceOK_trim {x : List Char} (h : nlSpaceOK x = true) :
    nlSpaceOK (jsTrimList x) = true :=
  nlSpaceOK_append_left (jsTrimList_eq_append x ▸ nlSpaceOK_dropWhile isJsSpace h)

theorem spaceNlOK_trim {x : List Char} (h : spaceNlOK x = true) :
    spaceNlOK (jsTrimList x) = true :=
  spaceNlOK_append_left (jsTrimList_eq_append x ▸ spaceNlOK_dropWhile isJsSpace h)

theorem runsOKb_cons_iff {c : Char} {rest : List Char} :
    runsOKb (c :: rest) = true ↔
      (c = '\n' → wsNlCount rest ≤ 1) ∧ runsOKb rest = true := by
  simp only [runsOKb, Bool.and_eq_true]
  constructor
  · rintro ⟨h1, h2⟩
    refine ⟨fun hc => ?_, h2⟩
    rw [if_pos hc] at h1
    exact of_decide_eq_true h1
  · rintro ⟨h1, h2⟩
    refine ⟨?_, h2⟩
    by_cases hc : c = '\n'
    · rw [if_pos hc]
      exact decide_eq_true (h1 hc)
    · rw [if_neg hc]

theorem spaceTabOK_cons_iff {c : Char} {rest : List Char} :
    spaceTabOK (c :: rest) = true ↔
      c ≠ '\t' ∧ ¬(c = ' ' ∧ rest.head? = some ' ') ∧ spaceTabOK rest = true := by
  simp only [spaceTabOK, Bool.and_eq_true, Bool.not_eq_true',
    decide_eq_false_iff_not, Bool.and_eq_false_iff, decide_eq_false_iff_not,
    ne_eq]
  constructor
  · rintro ⟨⟨h1, h2⟩, h3⟩
    refine ⟨h1, ?_, h3⟩
    rintro ⟨hc, hh⟩
    rcases h2 with h2 | h2
    · simp [hc] at h2
    · simp [hh] at h2
  · rintro ⟨h1, h2, h3⟩
    refine ⟨⟨h1, ?_⟩, h3⟩
    by_cases hc : c = ' '
    · right
      exact fun hh => h2 ⟨hc, hh⟩
    · left
      simp [hc]

theorem nlSpaceOK_cons_iff {c : Char} {rest : List Char} :
    nlSpaceOK (c :: rest) = true ↔
      ¬(c = '\n' ∧ rest.head? = some ' ') ∧ nlSpaceOK rest = true := by
  simp only [nlSpaceOK, Bool.and_eq_true, Bool.not_eq_true',
    Bool.and_eq_false_iff, decide_eq_false_iff_not]
  constructor
  · rintro ⟨h1, h2⟩
    refine ⟨?_, h2⟩
    rintro ⟨hc, hh⟩
    rcases h1 with h1 | h1 <;> [exact h1 hc; exact h1 hh]
  · rintro ⟨h1, h2⟩
    refine ⟨?_, h2⟩
    by_cases hc : c = '\n'
    · right; exact fun hh => h1 ⟨hc, hh⟩
    · left; exact hc

theorem spaceNlOK_cons_iff {c : Char} {rest : List Char} :
    spaceNlOK (c :: rest) = true ↔
      ¬(c = ' ' ∧ rest.head? = some '\n') ∧ spaceNlOK rest = true := by
  simp only [spaceNlOK, Bool.and_eq_true, Bool.not_eq_true',
    Bool.and_eq_false_iff, decide_eq_false_iff_not]
  constructor
  · rintro ⟨h1, h2⟩
    refine ⟨?_, h2⟩
    rintro ⟨hc, hh⟩
    rcases h1 with h1 | h1 <;> [exact h1 hc; exact h1 hh]
  · rintro ⟨h1, h2⟩
    refine ⟨?_, h2⟩
    by_cases hc : c = ' '
    · right; exact fun hh => h1 ⟨hc, hh⟩
    · left; exact hc

/-- A list whose head is not whitespace has an empty whitespace prefix. -/
theorem wsNlCount_eq_zero {z : List Char}
    (h : ∀ c, z.head? = some c → isJsSpace c = false) : wsNlCount z = 0 := by
  cases z with
  | nil => rfl
  | cons c z' =>
    unfold wsNlCount
    rw [List.takeWhile_cons_of_neg (by simp [h c rfl])]
    rfl

theorem wsNlCount_cons_ws {c : Char} {y : List Char} (h : isJsSpace c = true) :
    wsNlCount (c :: y) = (if c = '\n' then 1 else 0) + wsNlCount y := by
  unfold wsNlCount
  rw [List.takeWhile_cons_of_pos h]
  by_cases hc : c = '\n' <;> simp [List.count_cons, hc, Nat.add_comm]

theorem wsNlCount_cons_not_ws {c : Char} {y : List Char}
    (h : isJsSpace c = false) : wsNlCount (c :: y) = 0 := by
  unfold wsNlCount
  rw [List.takeWhile_cons_of_neg (by simp [h])]
  rfl

/-- F2: a list without tabs or double spaces is a `replSpaceTab` fixpoint. -/
theorem replSpaceTab_fix : ∀ {x : List Char},
    spaceTabOK x = true → replSpaceTab x = x := by
  intro x h
  induction x with
  | nil => rw [replSpaceTab.eq_def]
  | cons c rest ih =>
    obtain ⟨htab, hdbl, hrest⟩ := spaceTabOK_cons_iff.mp h
    simp only [replSpaceTab]
    by_cases hst : isSpaceTab c
    · have hsp : c = ' ' := by
        revert hst
        unfold isSpaceTab
        simp only [Bool.or_eq_true, decide_eq_true_eq]
        rintro (h | h)
        · exact h
        · exact absurd h htab
      have hdrop : rest.dropWhile isSpaceTab = rest := by
        cases rest with
        | nil => rfl
        | cons d rest' =>
          have hd : d ≠ ' ' := fun he => hdbl ⟨hsp, by simp [he]⟩
          have hd2 : d ≠ '\t' := (spaceTabOK_cons_iff.mp hrest).1
          rw [List.dropWhile_cons_of_neg]
          unfold isSpaceTab
          simp [hd, hd2]
      rw [if_pos hst, hsp, hdrop, ih hrest]
    · rw [if_neg hst, ih hrest]

/-- `replNlSpace` keeps the head character. -/
theorem replNlSpace_head : ∀ z : List Char, (replNlSpace z).head? = z.head? := by
  intro z
  unfold replNlSpace
  split <;> rfl

/-- F3: a list without a newline-space pair is a `replNlSpace` fixpoint. -/
theorem replNlSpace_fix : ∀ {x : List Char},
    nlSpaceOK x = true → replNlSpace x = x := by
  intro x h
  induction x using replNlSpace.induct with
  | case1 rest ih =>
    exact absurd ⟨rfl, rfl⟩ (nlSpaceOK_cons_iff.mp h).1
  | case2 c rest hne ih =>
    rw [replNlSpace.eq_def]
    split
    · rename_i rest' heq
      injection heq with h1 h2
      exact absurd h2 (by simpa using hne rest' h1)
    · rename_i c' rest' heq
      injection heq with h1 h2
      subst h1; subst h2
      rw [ih (nlSpaceOK_tail h)]
    · rename_i heq
      exact absurd heq (by simp)
  | case3 => rfl

/-- `replSpaceNl` keeps a non-space head character. -/
theorem replSpaceNl_head : ∀ {d : Char} {z : List Char}, d ≠ ' ' →
    (replSpaceNl (d :: z)).head? = some d := by
  intro d z hd
  rw [replSpaceNl.eq_def]
  split
  · rename_i rest heq
    injection heq with h1 h2
    exact absurd h1 hd
  · rename_i c rest heq
    injection heq with h1 h2
    simp [h1]
  · rename_i heq
    exact absurd heq (by simp)

/-- F4: a list without a space-newline pair is a `replSpaceNl` fixpoint. -/
theorem replSpaceNl_fix : ∀ {x : List Char},
    spaceNlOK x = true → replSpaceNl x = x := by
  intro x h
  induction x using replSpaceNl.induct with
  | case1 rest ih =>
    exact absurd ⟨rfl, rfl⟩ (spaceNlOK_cons_iff.mp h).1
  | case2 c rest hne ih =>
    rw [replSpaceNl.eq_def]
    split
    · rename_i rest' heq
      injection heq with h1 h2
      exact absurd h2 (by simpa using hne rest' h1)
    · rename_i c' rest' heq
      injection heq with h1 h2
      subst h1; subst h2
      rw [ih (spaceNlOK_tail h)]
    · rename_i heq
      exact absurd heq (by simp)
  | case3 => rfl

/-- F5: a list whose whitespace runs hold at most two newlines is a
`replNl3` fixpoint. -/
theorem replNl3_fix : ∀ {x : List Char},
    runsOKb x = true → replNl3 x = x := by
  intro x h
  induction x using replNl3.induct with
  | case1 rest ih =>
    exfalso
    have h1 : wsNlCount ('\n' :: '\n' :: rest) ≤ 1 :=
      (runsOKb_cons_iff.mp h).1 rfl
    rw [wsNlCount_cons_ws (by decide), if_pos rfl,
      wsNlCount_cons_ws (by decide), if_pos rfl] at h1
    omega
  | case2 c rest hne ih =>
    rw [replNl3.eq_def]
    split
    · rename_i rest' heq
      injection heq with h1 h2
      exact (hne rest' h1 h2).elim
    · rename_i c' rest' heq
      injection heq with h1 h2
      subst h1; subst h2
      rw [ih (runsOKb_tail h)]
    · rename_i heq
      exact absurd heq (by simp)
  | case3 => rw [replNl3.eq_def]

theorem head_dropWhile_not (p : Char → Bool) (l : List Char) :
    ∀ c, (l.dropWhile p).head? = some c → p c = false := by
  induction l with
  | nil => intro c h; cases h
  | cons a l ih =>
    intro c h
    by_cases ha : p a
    · rw [List.dropWhile_cons_of_pos ha] at h
      exact ih c h
    · rw [List.dropWhile_cons_of_neg (by simpa using ha)] at h
      cases h
      simpa using ha

theorem getLast_dropWhile (p : Char → Bool) (l : List Char)
    (h : l.dropWhile p ≠ []) : (l.dropWhile p).getLast? = l.getLast? := by
  obtain ⟨t, ht⟩ := (List.dropWhile_suffix p (l := l))
  conv_rhs => rw [← ht]
  rw [List.getLast?_append]
  cases hr : (l.dropWhile p).getLast? with
  | none =>
    rw [List.getLast?_eq_none_iff] at hr
    exact absurd hr h
  | some a => simp [hr]

/-- F6: a list whose ends are not whitespace is a trim fixpoint. -/
theorem jsTrimList_fix {x : List Char} (h : endsOK x = true) :
    jsTrimList x = x := by
  unfold endsOK at h
  simp only [Bool.and_eq_true] at h
  have h1 : x.dropWhile isJsSpace = x := by
    cases x with
    | nil => rfl
    | cons c rest =>
      rw [List.dropWhile_cons_of_neg]
      have := h.1
      simpa using this
  have h2 : x.reverse.dropWhile isJsSpace = x.reverse := by
    cases hx : x.reverse with
    | nil => rfl
    | cons c rest =>
      rw [List.dropWhile_cons_of_neg]
      have hc : x.getLast? = some c := by
        rw [← List.head?_reverse, hx]
        rfl
      have := h.2
      rw [hc] at this
      simpa using this
  unfold jsTrimList
  rw [h1, h2, List.reverse_reverse]

/-- E6: trimming leaves no whitespace at either end. -/
theorem endsOK_jsTrimList (x : List Char) : endsOK (jsTrimList x) = true := by
  unfold endsOK jsTrimList
  simp only [Bool.and_eq_true]
  constructor
  · rw [List.head?_reverse]
    by_cases hz : (x.dropWhile isJsSpace).reverse.dropWhile isJsSpace = []
    · rw [hz]
      rfl
    · rw [getLast_dropWhile _ _ hz, List.getLast?_reverse]
      cases hh : (x.dropWhile isJsSpace).head? with
      | none => rfl
      | some d =>
        simp only [Option.all_some]
        simp [head_dropWhile_not isJsSpace x d hh]
  · rw [List.getLast?_reverse]
    cases hh : ((x.dropWhile isJsSpace).reverse.dropWhile isJsSpace).head? with
    | none => rfl
    | some d =>
      simp only [Option.all_some]
      simp [head_dropWhile_not isJsSpace (x.dropWhile isJsSpace).reverse d hh]

theorem takeWhile_append_all {p : Char → Bool} : ∀ {u v : List Char},
    (∀ a ∈ u, p a = true) → (u ++ v).takeWhile p = u ++ v.takeWhile p := by
  intro u v h
  induction u with
  | nil => simp
  | cons a u ih =>
    rw [List.cons_append, List.takeWhile_cons_of_pos (h a (by simp)),
      ih (fun b hb => h b (by simp [hb])), List.cons_append]

theorem wsNlCount_append_run : ∀ {u v : List Char},
    (∀ a ∈ u, isJsSpace a = true ∧ a ≠ '\n') →
    wsNlCount (u ++ v) = wsNlCount v := by
  intro u v h
  induction u with
  | nil => rfl
  | cons a u ih =>
    rw [List.cons_append, wsNlCount_cons_ws (h a (by simp)).1,
      if_neg (h a (by simp)).2, ih (fun b hb => h b (by simp [hb]))]
    omega

theorem isSpaceTab_ws {a : Char} (h : isSpaceTab a = true) :
    isJsSpace a = true ∧ a ≠ '\n' := by
  unfold isSpaceTab at h
  simp only [Bool.or_eq_true, decide_eq_true_eq] at h
  rcases h with h | h <;> subst h <;> exact ⟨by decide, by decide⟩

theorem replNlSpace_cons_nlsp (rest : List Char) :
    replNlSpace ('\n' :: ' ' :: rest) = '\n' :: replNlSpace rest := by
  simp [replNlSpace]

theorem replNlSpace_eq_cons {c : Char} {z : List Char}
    (h : ∀ r, c = '\n' → z ≠ ' ' :: r) :
    replNlSpace (c :: z) = c :: replNlSpace z := by
  rw [replNlSpace.eq_def]
  split
  · rename_i rest heq
    injection heq with h1 h2
    exact absurd h2 (h rest h1)
  · rename_i c' rest heq
    injection heq with h1 h2
    subst h1; subst h2
    rfl
  · rename_i heq
    exact absurd heq (by simp)

theorem replSpaceNl_cons_spnl (rest : List Char) :
    replSpaceNl (' ' :: '\n' :: rest) = '\n' :: replSpaceNl rest := by
  simp [replSpaceNl]

theorem replSpaceNl_eq_cons {c : Char} {z : List Char}
    (h : ∀ r, c = ' ' → z ≠ '\n' :: r) :
    replSpaceNl (c :: z) = c :: replSpaceNl z := by
  rw [replSpaceNl.eq_def]
  split
  · rename_i rest heq
    injection heq with h1 h2
    exact absurd h2 (h rest h1)
  · rename_i c' rest heq
    injection heq with h1 h2
    subst h1; subst h2
    rfl
  · rename_i heq
    exact absurd heq (by simp)

theorem replNl3_eq_cons {c : Char} {z : List Char}
    (h : ∀ r, c = '\n' → z ≠ '\n' :: '\n' :: r) :
    replNl3 (c :: z) = c :: replNl3 z := by
  rw [replNl3.eq_def]
  split
  · rename_i rest heq
    injection heq with h1 h2
    exact absurd h2 (h rest h1)
  · rename_i c' rest heq
    injection heq with h1 h2
    subst h1; subst h2
    rfl
  · rename_i heq
    exact absurd heq (by simp)

/-- `replSpaceTab` does not raise the newline count of the leading
whitespace run. -/
theorem wsNlCount_replSpaceTab : ∀ x : List Char,
    wsNlCount (replSpaceTab x) ≤ wsNlCount x := by
  intro x
  induction x using replSpaceTab.induct with
  | case1 =>
    have h0 : replSpaceTab [] = [] := by rw [replSpaceTab.eq_def]
    rw [h0]
  | case2 c rest hst ih =>
    rw [replSpaceTab, if_pos hst]
    have hd : wsNlCount (c :: rest) =
        wsNlCount (rest.dropWhile isSpaceTab) := by
      have hsplit : c :: rest =
          (c :: rest.takeWhile isSpaceTab) ++ rest.dropWhile isSpaceTab := by
        simp [List.takeWhile_append_dropWhile]
      rw [hsplit, wsNlCount_append_run]
      intro a ha
      rcases List.mem_cons.1 ha with rfl | ha
      · exact isSpaceTab_ws hst
      · exact isSpaceTab_ws (List.mem_takeWhile_imp ha)
    rw [hd, wsNlCount_cons_ws (by decide), if_neg (by decide)]
    simpa using ih
  | case3 c rest hst ih =>
    rw [replSpaceTab, if_neg hst]
    by_cases hws : isJsSpace c
    · rw [wsNlCount_cons_ws hws, wsNlCount_cons_ws hws]
      omega
    · rw [wsNlCount_cons_not_ws (by simpa using hws),
        wsNlCount_cons_not_ws (by simpa using hws)]

/-- `replNlSpace` does not raise the newline count of the leading
whitespace run. -/
theorem wsNlCount_replNlSpace : ∀ x : List Char,
    wsNlCount (replNlSpace x) ≤ wsNlCount x := by
  intro x
  induction x using replNlSpace.induct with
  | case1 rest ih =>
    rw [replNlSpace_cons_nlsp,
      wsNlCount_cons_ws (by decide), if_pos rfl,
      wsNlCount_cons_ws (by decide), if_pos rfl,
      wsNlCount_cons_ws (by decide), if_neg (by decide)]
    omega
  | case2 c rest hne ih =>
    rw [replNlSpace_eq_cons (fun r h1 h2 => hne r h1 h2)]
    by_cases hws : isJsSpace c
    · rw [wsNlCount_cons_ws hws, wsNlCount_cons_ws hws]
      omega
    · rw [wsNlCount_cons_not_ws (by simpa using hws),
        wsNlCount_cons_not_ws (by simpa using hws)]
  | case3 => exact Nat.le_refl _

/-- `replSpaceNl` does not raise the newline count of the leading
whitespace run. -/
theorem wsNlCount_replSpaceNl : ∀ x : List Char,
    wsNlCount (replSpaceNl x) ≤ wsNlCount x := by
  intro x
  induction x using replSpaceNl.induct with
  | case1 rest ih =>
    rw [replSpaceNl_cons_spnl,
      wsNlCount_cons_ws (by decide), if_pos rfl,
      wsNlCount_cons_ws (by decide), if_neg (by decide),
      wsNlCount_cons_ws (by decide), if_pos rfl]
    omega
  | case2 c rest hne ih =>
    rw [replSpaceNl_eq_cons (fun r h1 h2 => hne r h1 h2)]
    by_cases hws : isJsSpace c
    · rw [wsNlCount_cons_ws hws, wsNlCount_cons_ws hws]
      omega
    · rw [wsNlCount_cons_not_ws (by simpa using hws),
        wsNlCount_cons_not_ws (by simpa using hws)]
  | case3 => exact Nat.le_refl _

theorem isSpaceTab_false {c : Char} (h : isSpaceTab c = false) :
    c ≠ ' ' ∧ c ≠ '\t' := by
  unfold isSpaceTab at h
  simp only [Bool.or_eq_false_iff, decide_eq_false_iff_not] at h
  exact h

/-- P1 is preserved by `replSpaceTab`. -/
theorem runsOKb_replSpaceTab : ∀ {x : List Char},
    runsOKb x = true → runsOKb (replSpaceTab x) = true := by
  intro x h
  induction x using replSpaceTab.induct with
  | case1 =>
    have h0 : replSpaceTab [] = [] := by rw [replSpaceTab.eq_def]
    rw [h0]
    rfl
  | case2 c rest hst ih =>
    rw [replSpaceTab, if_pos hst]
    rw [runsOKb_cons_iff]
    have hd : runsOKb (rest.dropWhile isSpaceTab) = true :=
      runsOKb_dropWhile isSpaceTab (runsOKb_tail h)
    exact ⟨fun he => absurd he (by decide), ih hd⟩
  | case3 c rest hst ih =>
    rw [replSpaceTab, if_neg hst]
    rw [runsOKb_cons_iff]
    obtain ⟨h1, h2⟩ := runsOKb_cons_iff.mp h
    exact ⟨fun he => (wsNlCount_replSpaceTab rest).trans (h1 he), ih h2⟩

/-- P1 is preserved by `replNlSpace`. -/
theorem runsOKb_replNlSpace : ∀ {x : List Char},
    runsOKb x = true → runsOKb (replNlSpace x) = true := by
  intro x h
  induction x using replNlSpace.induct with
  | case1 rest ih =>
    rw [replNlSpace_cons_nlsp, runsOKb_cons_iff]
    obtain ⟨h1, h2⟩ := runsOKb_cons_iff.mp h
    have h2' := runsOKb_tail h2
    refine ⟨fun _ => ?_, ih h2'⟩
    have := h1 rfl
    rw [wsNlCount_cons_ws (by decide), if_neg (by decide)] at this
    exact (wsNlCount_replNlSpace rest).trans (by omega)
  | case2 c rest hne ih =>
    rw [replNlSpace_eq_cons (fun r h1 h2 => hne r h1 h2), runsOKb_cons_iff]
    obtain ⟨h1, h2⟩ := runsOKb_cons_iff.mp h
    exact ⟨fun he => (wsNlCount_replNlSpace rest).trans (h1 he), ih h2⟩
  | case3 => rfl

/-- P1 is preserved by `replSpaceNl`. -/
theorem runsOKb_replSpaceNl : ∀ {x : List Char},
    runsOKb x = true → runsOKb (replSpaceNl x) = true := by
  intro x h
  induction x using replSpaceNl.induct with
  | case1 rest ih =>
    rw [replSpaceNl_cons_spnl, runsOKb_cons_iff]
    obtain ⟨h1, h2⟩ := runsOKb_cons_iff.mp (runsOKb_tail h)
    exact ⟨fun _ => (wsNlCount_replSpaceNl rest).trans (h1 rfl), ih h2⟩
  | case2 c rest hne ih =>
    rw [replSpaceNl_eq_cons (fun r h1 h2 => hne r h1 h2), runsOKb_cons_iff]
    obtain ⟨h1, h2⟩ := runsOKb_cons_iff.mp h
    exact ⟨fun he => (wsNlCount_replSpaceNl rest).trans (h1 he), ih h2⟩
  | case3 => rfl

/-- P2 is preserved by `replNlSpace`. -/
theorem spaceTabOK_replNlSpace : ∀ {x : List Char},
    spaceTabOK x = true → spaceTabOK (replNlSpace x) = true := by
  intro x h
  induction x using replNlSpace.induct with
  | case1 rest ih =>
    rw [replNlSpace_cons_nlsp, spaceTabOK_cons_iff]
    have h2 : spaceTabOK rest = true :=
      spaceTabOK_tail (spaceTabOK_tail h)
    refine ⟨by decide, ?_, ih h2⟩
    rintro ⟨he, _⟩
    exact absurd he (by decide)
  | case2 c rest hne ih =>
    rw [replNlSpace_eq_cons (fun r h1 h2 => hne r h1 h2), spaceTabOK_cons_iff]
    obtain ⟨h1, h2, h3⟩ := spaceTabOK_cons_iff.mp h
    refine ⟨h1, ?_, ih h3⟩
    rw [replNlSpace_head]
    exact h2
  | case3 => rfl

/-- P2 is preserved by `replSpaceNl`. -/
theorem spaceTabOK_replSpaceNl : ∀ {x : List Char},
    spaceTabOK x = true → spaceTabOK (replSpaceNl x) = true := by
  intro x h
  induction x using replSpaceNl.induct with
  | case1 rest ih =>
    rw [replSpaceNl_cons_spnl, spaceTabOK_cons_iff]
    have h2 : spaceTabOK rest = true :=
      spaceTabOK_tail (spaceTabOK_tail h)
    refine ⟨by decide, ?_, ih h2⟩
    rintro ⟨he, _⟩
    exact absurd he (by decide)
  | case2 c rest hne ih =>
    rw [replSpaceNl_eq_cons (fun r h1 h2 => hne r h1 h2), spaceTabOK_cons_iff]
    obtain ⟨h1, h2, h3⟩ := spaceTabOK_cons_iff.mp h
    refine ⟨h1, ?_, ih h3⟩
    rintro ⟨he, hh⟩
    cases rest with
    | nil =>
      rw [show replSpaceNl [] = [] from by rw [replSpaceNl.eq_def]] at hh
      cases hh
    | cons d z =>
      have hd : d ≠ ' ' := fun hde => h2 ⟨he, by simp [hde]⟩
      rw [replSpaceNl_head hd] at hh
      simp only [Option.some.injEq] at hh
      exact hd hh
  | case3 => rfl

/-- P3 is preserved by `replSpaceNl`. -/
theorem nlSpaceOK_replSpaceNl : ∀ {x : List Char},
    nlSpaceOK x = true → nlSpaceOK (replSpaceNl x) = true := by
  intro x h
  induction x using replSpaceNl.induct with
  | case1 rest ih =>
    rw [replSpaceNl_cons_spnl, nlSpaceOK_cons_iff]
    obtain ⟨h1, h2⟩ := nlSpaceOK_cons_iff.mp (nlSpaceOK_tail h)
    refine ⟨?_, ih h2⟩
    rintro ⟨-, hh⟩
    cases rest with
    | nil =>
      rw [show replSpaceNl [] = [] from by rw [replSpaceNl.eq_def]] at hh
      cases hh
    | cons d z =>
      have hd : d ≠ ' ' := fun hde => h1 ⟨rfl, by simp [hde]⟩
      rw [replSpaceNl_head hd] at hh
      simp only [Option.some.injEq] at hh
      exact hd hh
  | case2 c rest hne ih =>
    rw [replSpaceNl_eq_cons (fun r h1 h2 => hne r h1 h2), nlSpaceOK_cons_iff]
    obtain ⟨h1, h2⟩ := nlSpaceOK_cons_iff.mp h
    refine ⟨?_, ih h2⟩
    rintro ⟨he, hh⟩
    cases rest with
    | nil =>
      rw [show replSpaceNl [] = [] from by rw [replSpaceNl.eq_def]] at hh
      cases hh
    | cons d z =>
      have hd : d ≠ ' ' := fun hde => h1 ⟨he, by simp [hde]⟩
      rw [replSpaceNl_head hd] at hh
      simp only [Option.some.injEq] at hh
      exact hd hh
  | case3 => rfl

/-- E2: `replSpaceTab` leaves no tab and no double space. -/
theorem spaceTabOK_replSpaceTab_out : ∀ x : List Char,
    spaceTabOK (replSpaceTab x) = true := by
  intro x
  induction x using replSpaceTab.induct with
  | case1 =>
    have h0 : replSpaceTab [] = [] := by rw [replSpaceTab.eq_def]
    rw [h0]
    rfl
  | case2 c rest hst ih =>
    rw [replSpaceTab, if_pos hst, spaceTabOK_cons_iff]
    refine ⟨by decide, ?_, ih⟩
    rintro ⟨-, hh⟩
    cases hd : rest.dropWhile isSpaceTab with
    | nil =>
      rw [hd, show replSpaceTab [] = [] from by rw [replSpaceTab.eq_def]] at hh
      cases hh
    | cons e z =>
      have he : isSpaceTab e = false := by
        have := head_dropWhile_not isSpaceTab rest e
        rw [hd] at this
        exact this rfl
      rw [hd, replSpaceTab, if_neg (by simp [he])] at hh
      simp only [List.head?_cons, Option.some.injEq] at hh
      exact (isSpaceTab_false he).1 hh
  | case3 c rest hst ih =>
    rw [replSpaceTab, if_neg hst, spaceTabOK_cons_iff]
    refine ⟨(isSpaceTab_false (by simpa using hst)).2, ?_, ih⟩
    rintro ⟨he, -⟩
    exact (isSpaceTab_false (by simpa using hst)).1 he

/-- E3: after `replSpaceTab`, `replNlSpace` leaves no newline-space pair. -/
theorem nlSpaceOK_replNlSpace_out : ∀ {x : List Char},
    spaceTabOK x = true → nlSpaceOK (replNlSpace x) = true := by
  intro x h
  induction x using replNlSpace.induct with
  | case1 rest ih =>
    rw [replNlSpace_cons_nlsp, nlSpaceOK_cons_iff]
    obtain ⟨-, h2, h3⟩ := spaceTabOK_cons_iff.mp (spaceTabOK_tail h)
    refine ⟨?_, ih h3⟩
    rintro ⟨-, hh⟩
    rw [replNlSpace_head] at hh
    exact h2 ⟨rfl, hh⟩
  | case2 c rest hne ih =>
    rw [replNlSpace_eq_cons (fun r h1 h2 => hne r h1 h2), nlSpaceOK_cons_iff]
    refine ⟨?_, ih (spaceTabOK_tail h)⟩
    rintro ⟨he, hh⟩
    rw [replNlSpace_head] at hh
    cases rest with
    | nil => cases hh
    | cons d z =>
      simp only [List.head?_cons, Option.some.injEq] at hh
      exact hne z he (by rw [hh])
  | case3 => rfl

/-- E4: after `replSpaceTab`, `replSpaceNl` leaves no space-newline pair. -/
theorem spaceNlOK_replSpaceNl_out : ∀ {x : List Char},
    spaceTabOK x = true → spaceNlOK (replSpaceNl x) = true := by
  intro x h
  induction x using replSpaceNl.induct with
  | case1 rest ih =>
    rw [replSpaceNl_cons_spnl, spaceNlOK_cons_iff]
    refine ⟨?_, ih (spaceTabOK_tail (spaceTabOK_tail h))⟩
    rintro ⟨he, -⟩
    exact absurd he (by decide)
  | case2 c rest hne ih =>
    rw [replSpaceNl_eq_cons (fun r h1 h2 => hne r h1 h2), spaceNlOK_cons_iff]
    obtain ⟨h1, h2, h3⟩ := spaceTabOK_cons_iff.mp h
    refine ⟨?_, ih h3⟩
    rintro ⟨he, hh⟩
    cases rest with
    | nil =>
      rw [show replSpaceNl [] = [] from by rw [replSpaceNl.eq_def]] at hh
      cases hh
    | cons d z =>
      have hd : d ≠ ' ' := fun hde => h2 ⟨he, by simp [hde]⟩
      rw [replSpaceNl_head hd] at hh
      simp only [Option.some.injEq] at hh
      exact hne z he (by rw [hh])
  | case3 => rfl

theorem replNnn_nil : replNnn [] = [] := by rw [replNnn.eq_def]

theorem replNnn_cons_ne {c : Char} {z : List Char} (h : c ≠ '\n') :
    replNnn (c :: z) = c :: replNnn z := by
  rw [replNnn]
  rw [if_neg h]

theorem replNnn_append_no_nl : ∀ {u y : List Char},
    ('\n' ∉ u) → replNnn (u ++ y) = u ++ replNnn y := by
  intro u y h
  induction u with
  | nil => rfl
  | cons a u ih =>
    rw [List.cons_append, replNnn_cons_ne (fun he => h (by simp [he])),
      ih (fun hm => h (by simp [hm])), List.cons_append]

theorem mem_afterLastNl {l : List Char} : ∀ a ∈ afterLastNl l, a ∈ l := by
  intro a ha
  unfold afterLastNl at ha
  rw [List.mem_reverse] at ha
  have := List.takeWhile_sublist (fun c => decide (c ≠ '\n')) (l := l.reverse)
  exact List.mem_reverse.mp (this.mem ha)

theorem not_nl_mem_afterLastNl {l : List Char} : '\n' ∉ afterLastNl l := by
  intro hm
  unfold afterLastNl at hm
  rw [List.mem_reverse] at hm
  have := List.mem_takeWhile_imp hm
  simp at this

/-- `replNnn` of a list with no leading whitespace has none either. -/
theorem wsNlCount_replNnn_zero : ∀ {z : List Char},
    (∀ c, z.head? = some c → isJsSpace c = false) →
    wsNlCount (replNnn z) = 0 := by
  intro z h
  cases z with
  | nil => rw [replNnn_nil]; rfl
  | cons c z' =>
    have hc : isJsSpace c = false := h c rfl
    have hc' : c ≠ '\n' := fun he => by rw [he] at hc; cases hc
    rw [replNnn_cons_ne hc', wsNlCount_cons_not_ws hc]

/-- The recursive argument of `replNnn`'s collapse branch has no newline in
its leading whitespace run. -/
theorem wsNlCount_replNnn_arg (rest : List Char) :
    wsNlCount (replNnn (afterLastNl (rest.takeWhile isJsSpace) ++
      rest.dropWhile isJsSpace)) = 0 := by
  rw [replNnn_append_no_nl not_nl_mem_afterLastNl, wsNlCount_append_run, 
    wsNlCount_replNnn_zero (head_dropWhile_not isJsSpace rest)]
  intro a ha
  refine ⟨List.mem_takeWhile_imp (mem_afterLastNl a ha), ?_⟩
  intro he
  exact not_nl_mem_afterLastNl (he ▸ ha)

/-- `replNnn` does not raise the newline count of the leading whitespace
run. -/
theorem wsNlCount_replNnn : ∀ x : List Char,
    wsNlCount (replNnn x) ≤ wsNlCount x := by
  intro x
  induction x using replNnn.induct with
  | case1 => rw [replNnn_nil]
  | case2 rest h2 ih =>
    rw [replNnn, if_pos rfl, if_pos h2]
    rw [wsNlCount_cons_ws (by decide), if_pos rfl,
      wsNlCount_cons_ws (by decide), if_pos rfl,
      wsNlCount_replNnn_arg,
      wsNlCount_cons_ws (by decide), if_pos rfl]
    have h2' : 2 ≤ wsNlCount rest := h2
    omega
  | case3 rest h2 ih =>
    rw [replNnn, if_pos rfl, if_neg h2]
    rw [wsNlCount_cons_ws (by decide), if_pos rfl,
      wsNlCount_cons_ws (by decide), if_pos rfl]
    omega
  | case4 c rest h1 ih =>
    rw [replNnn_cons_ne h1]
    by_cases hws : isJsSpace c
    · rw [wsNlCount_cons_ws hws, wsNlCount_cons_ws hws]
      omega
    · rw [wsNlCount_cons_not_ws (by simpa using hws),
        wsNlCount_cons_not_ws (by simpa using hws)]

/-- E1: the output of `replNnn` has at most one further newline in the
whitespace run after each newline. -/
theorem runsOKb_replNnn_out : ∀ x : List Char,
    runsOKb (replNnn x) = true := by
  intro x
  induction x using replNnn.induct with
  | case1 => rw [replNnn_nil]; rfl
  | case2 rest h2 ih =>
    rw [replNnn, if_pos rfl, if_pos h2]
    rw [runsOKb_cons_iff, runsOKb_cons_iff]
    refine ⟨fun _ => ?_, fun _ => ?_, ih⟩
    · rw [wsNlCount_cons_ws (by decide), if_pos rfl, wsNlCount_replNnn_arg]
    · rw [wsNlCount_replNnn_arg]
      omega
  | case3 rest h2 ih =>
    rw [replNnn, if_pos rfl, if_neg h2]
    rw [runsOKb_cons_iff]
    refine ⟨fun _ => ?_, ih⟩
    have h2' : wsNlCount rest ≤ 1 := by
      have : ¬ (2 ≤ wsNlCount rest) := h2
      omega
    exact (wsNlCount_replNnn rest).trans h2'
  | case4 c rest h1 ih =>
    rw [replNnn_cons_ne h1, runsOKb_cons_iff]
    exact ⟨fun he => absurd he h1, ih⟩

/-- F1: a list whose whitespace runs hold at most one newline after each
newline is a `replNnn` fixpoint. -/
theorem replNnn_fix : ∀ {x : List Char},
    runsOKb x = true → replNnn x = x := by
  intro x h
  induction x using replNnn.induct with
  | case1 => exact replNnn_nil
  | case2 rest h2 ih =>
    have := (runsOKb_cons_iff.mp h).1 rfl
    have h2' : 2 ≤ wsNlCount rest := h2
    omega
  | case3 rest h2 ih =>
    rw [replNnn, if_pos rfl, if_neg h2, ih (runsOKb_tail h)]
  | case4 c rest h1 ih =>
    rw [replNnn_cons_ne h1, ih (runsOKb_tail h)]

/-- The five stage invariants all hold of the pipeline's output, so
re-running every stage on it is the identity. -/
theorem cleanupWhitespaceList_idem (l : List Char) :
    cleanupWhitespaceList (cleanupWhitespaceList l) = cleanupWhitespaceList l := by
  have hA1 : runsOKb (replNnn l) = true := runsOKb_replNnn_out l
  have hA2 := runsOKb_replSpaceTab hA1
  have hA3 := runsOKb_replNlSpace hA2
  have hA4 := runsOKb_replSpaceNl hA3
  have hB2 := spaceTabOK_replSpaceTab_out (replNnn l)
  have hB3 := spaceTabOK_replNlSpace hB2
  have hB4 := spaceTabOK_replSpaceNl hB3
  have hC3 := nlSpaceOK_replNlSpace_out hB2
  have hC4 := nlSpaceOK_replSpaceNl hC3
  have hD4 := spaceNlOK_replSpaceNl_out hB3
  unfold cleanupWhitespaceList
  rw [replNl3_fix hA4]
  rw [replNnn_fix (runsOKb_trim hA4),
    replSpaceTab_fix (spaceTabOK_trim hB4),
    replNlSpace_fix (nlSpaceOK_trim hC4),
    replSpaceNl_fix (spaceNlOK_trim hD4),
    replNl3_fix (runsOKb_trim hA4),
    jsTrimList_fix (endsOK_jsTrimList _)]



/-- C9: the whitespace normalization is idempotent — running
`cleanupWhitespace` on its own output returns that output unchanged, for
every input string. -/
theorem c9_cleanup_idempotent (s : String) :
    cleanupWhitespace (cleanupWhitespace s) = cleanupWhitespace s :=
  congrArg String.mk (cleanupWhitespaceList_idem s.data)

/-- C8 counterexample: the hash-digit pattern is matched against the
*trimmed* share-link text, so the raw text `" ##3 "` — which does not itself
consist of leading hashes followed by digits — still yields `"#3"` rather
than the empty string. -/
theorem c8_counterexample :
    matchesHashNum " ##3 ".data = false ∧
    getPostNumber ⟨some ⟨" ##3 ", "h"⟩, none, none, none, [], []⟩ = "#3" :=
  ⟨by decide, by decide⟩

end LotusExporter
